import Mathlib

/-!
Verification development for the GoScript in-browser Go toolchain host.

The definitions below are a shallow embedding of the JavaScript sources:

* byte buffers (`ArrayBuffer` / `Uint8Array`) are `List Nat`, one `Nat`
  (0..255) per byte;
* JavaScript strings are `List Char`, one `Char` per code point;
* `DataView.getUint16/32/BigUint64` with `littleEndian = true` is `readLE`
  (returning `none` models the `RangeError` thrown on an out-of-bounds read);
* `ArrayBuffer.slice(a, b)` is `jsSlice` (clamping, never throwing);
* `new Uint8Array(buffer, off, len)` is `typedView` (throwing `RangeError`
  when the view does not fit, hence an `Option`);
* fallible JavaScript code is modelled with `Except`, the error constructors
  naming the abstract error kinds of the specification.

Each embedded function carries a comment naming the source file and function
it is translated from.
-/

/-- A JavaScript byte buffer: one `Nat` (0..255) per byte. -/
abbrev Bytes := List Nat

/-- A JavaScript string, one `Char` per code point. -/
abbrev JSStr := List Char

/-- View a Lean string literal as a modelled JavaScript string. -/
def js (s : String) : JSStr := s.data

/-- Little-endian encoding of `n` on `k` bytes (the byte layout produced by
`Buffer.writeUInt32LE` / `writeUInt16LE` / `writeBigUInt64LE` in
`tools/pack-toolchain.sh`). -/
def natLE : Nat → Nat → Bytes
  | 0, _ => []
  | k + 1, n => n % 256 :: natLE k (n / 256)

/-- Value of a little-endian byte sequence. -/
def decodeLE : Bytes → Nat
  | [] => 0
  | b :: bs => b + 256 * decodeLE bs

/-- `DataView.getUintXX(off, true)` on buffer `p`, reading `k` bytes;
`none` models the `RangeError` thrown when the read overruns the buffer. -/
def readLE (p : Bytes) (off k : Nat) : Option Nat :=
  if off + k ≤ p.length then some (decodeLE ((p.drop off).take k)) else none

/-- `ArrayBuffer.slice(a, b)` with non-negative indices: clamps to the
buffer, never throws. -/
def jsSlice (p : Bytes) (a b : Nat) : Bytes := (p.drop a).take (b - a)

/-- `new Uint8Array(buffer, off, len)`: the view fits or a `RangeError`
is thrown (`none`). -/
def typedView (p : Bytes) (off len : Nat) : Option Bytes :=
  if off + len ≤ p.length then some ((p.drop off).take len) else none

def replacementChar : Char := Char.ofNat 0xFFFD

/-- `new TextDecoder().decode(buf)`: WHATWG UTF-8 decoding; malformed input
emits U+FFFD and reprocesses from the offending byte. -/
def utf8Decode : Bytes → JSStr
  | [] => []
  | b :: rest =>
    if b < 0x80 then Char.ofNat b :: utf8Decode rest
    else if b < 0xC2 then replacementChar :: utf8Decode rest
    else if b < 0xE0 then
      match rest with
      | c :: rest2 =>
        if 0x80 ≤ c ∧ c ≤ 0xBF then
          Char.ofNat ((b - 0xC0) * 64 + (c - 0x80)) :: utf8Decode rest2
        else replacementChar :: utf8Decode (c :: rest2)
      | [] => [replacementChar]
    else if b < 0xF0 then
      match rest with
      | c :: rest2 =>
        if (if b = 0xE0 then 0xA0 else 0x80) ≤ c ∧ c ≤ (if b = 0xED then 0x9F else 0xBF) then
          match rest2 with
          | d :: rest3 =>
            if 0x80 ≤ d ∧ d ≤ 0xBF then
              Char.ofNat ((b - 0xE0) * 4096 + (c - 0x80) * 64 + (d - 0x80)) :: utf8Decode rest3
            else replacementChar :: utf8Decode (d :: rest3)
          | [] => [replacementChar]
        else replacementChar :: utf8Decode (c :: rest2)
      | [] => [replacementChar]
    else if b < 0xF5 then
      match rest with
      | c :: rest2 =>
        if (if b = 0xF0 then 0x90 else 0x80) ≤ c ∧ c ≤ (if b = 0xF4 then 0x8F else 0xBF) then
          match rest2 with
          | d :: rest3 =>
            if 0x80 ≤ d ∧ d ≤ 0xBF then
              match rest3 with
              | e :: rest4 =>
                if 0x80 ≤ e ∧ e ≤ 0xBF then
                  Char.ofNat ((b - 0xF0) * 262144 + (c - 0x80) * 4096 +
                    (d - 0x80) * 64 + (e - 0x80)) :: utf8Decode rest4
                else replacementChar :: utf8Decode (e :: rest4)
              | [] => [replacementChar]
            else replacementChar :: utf8Decode (d :: rest3)
          | [] => [replacementChar]
        else replacementChar :: utf8Decode (c :: rest2)
      | [] => [replacementChar]
    else replacementChar :: utf8Decode rest

/-! A model of `JSON.parse` as an acceptor of the ECMA-404 JSON grammar
(the grammar ECMAScript `JSON.parse` uses): `parseToolchain` calls
`JSON.parse` on the decoded package-name section and a `SyntaxError`
thrown there aborts the parse, so the acceptance of that text must be
modelled exactly. The parsed value itself is stored but read by no code
path any claim touches, so only acceptance is tracked. Recursion through
nested values is expressed with explicit fuel; each recursive step either
consumes an input character first or is one of a bounded chain of
dispatch steps, so `4 * length + 8` units never run out on any input. -/

/-- The JSON whitespace characters (ECMA-404): tab, line feed, carriage
return, space. -/
def jsonWsChar (c : Char) : Bool :=
  c = Char.ofNat 9 || c = Char.ofNat 10 || c = Char.ofNat 13 || c = ' '

def skipJsonWs : List Char → List Char
  | [] => []
  | c :: rest => if jsonWsChar c then skipJsonWs rest else c :: rest

def isJsonDigit (c : Char) : Bool := decide ('0' ≤ c) && decide (c ≤ '9')

def isJsonHex (c : Char) : Bool :=
  (decide ('0' ≤ c) && decide (c ≤ '9')) || (decide ('a' ≤ c) && decide (c ≤ 'f')) ||
    (decide ('A' ≤ c) && decide (c ≤ 'F'))

/-- After the opening quote of a JSON string: consume through the closing
quote, accepting exactly the escape sequences of the JSON grammar
(`\" \\ \/ \b \f \n \r \t \uXXXX`) and rejecting raw control characters
below U+0020. Returns the input after the closing quote. Every step
consumes input, so fuel `length + 1` suffices. -/
def jsonStringRest : Nat → List Char → Option (List Char)
  | 0, _ => none
  | _, [] => none
  | fuel + 1, c :: rest =>
    if c = '"' then some rest
    else if c = '\\' then
      match rest with
      | [] => none
      | e :: rest2 =>
        if e = '"' || e = '\\' || e = '/' || e = 'b' || e = 'f' ||
            e = 'n' || e = 'r' || e = 't' then
          jsonStringRest fuel rest2
        else if e = 'u' then
          match rest2 with
          | h1 :: h2 :: h3 :: h4 :: rest3 =>
            if isJsonHex h1 && isJsonHex h2 && isJsonHex h3 && isJsonHex h4 then
              jsonStringRest fuel rest3
            else none
          | _ => none
        else none
    else if c.toNat < 0x20 then none
    else jsonStringRest fuel rest

/-- One or more decimal digits. -/
def jsonDigits (s : List Char) : Option (List Char) :=
  let ds := s.takeWhile isJsonDigit
  if ds.isEmpty then none else some (s.drop ds.length)

/-- The integer part of a JSON number after the optional minus: `0`, or a
nonzero digit followed by digits (leading zeros are not in the grammar). -/
def jsonIntTail : List Char → Option (List Char)
  | '0' :: rest => some rest
  | c :: rest =>
    if decide ('1' ≤ c) && decide (c ≤ '9') then
      some (rest.drop (rest.takeWhile isJsonDigit).length)
    else none
  | [] => none

/-- The optional fraction: `.` followed by one or more digits. -/
def jsonFracTail : List Char → Option (List Char)
  | '.' :: rest => jsonDigits rest
  | s => some s

/-- The optional exponent: `e`/`E`, an optional sign, one or more digits. -/
def jsonExpTail : List Char → Option (List Char)
  | c :: rest =>
    if c = 'e' || c = 'E' then
      match rest with
      | d :: rest2 => if d = '+' || d = '-' then jsonDigits rest2 else jsonDigits rest
      | [] => none
    else some (c :: rest)
  | [] => some []

/-- A JSON number: optional minus, integer part, optional fraction,
optional exponent. -/
def jsonNumber (s : List Char) : Option (List Char) :=
  let s1 := match s with
    | '-' :: rest => rest
    | _ => s
  match jsonIntTail s1 with
  | none => none
  | some s2 =>
    match jsonFracTail s2 with
    | none => none
    | some s3 => jsonExpTail s3

/-- The parsing obligations of the JSON acceptor: a value at the current
position (whitespace already skipped); the interior of an array right
after the opening bracket; the continuation of an array after an element;
the interior of an object right after the opening brace; a single object
member at its leading string. -/
inductive JTask where
  | value
  | arrayRest
  | arrayMore
  | objectRest
  | member
  | objectMore
deriving DecidableEq, Repr

/-- The fueled JSON acceptor on code points, returning the unconsumed
input on success. -/
def jsonRun : Nat → JTask → List Char → Option (List Char)
  | 0, _, _ => none
  | fuel + 1, JTask.value, s =>
    match s with
    | [] => none
    | c :: rest =>
      if c = '"' then jsonStringRest (rest.length + 1) rest
      else if c = Char.ofNat 123 then jsonRun fuel JTask.objectRest (skipJsonWs rest)
      else if c = '[' then jsonRun fuel JTask.arrayRest (skipJsonWs rest)
      else if c = 't' then
        match rest with
        | 'r' :: 'u' :: 'e' :: r => some r
        | _ => none
      else if c = 'f' then
        match rest with
        | 'a' :: 'l' :: 's' :: 'e' :: r => some r
        | _ => none
      else if c = 'n' then
        match rest with
        | 'u' :: 'l' :: 'l' :: r => some r
        | _ => none
      else jsonNumber (c :: rest)
  | fuel + 1, JTask.arrayRest, s =>
    match s with
    | ']' :: rest => some rest
    | _ =>
      match jsonRun fuel JTask.value s with
      | none => none
      | some r => jsonRun fuel JTask.arrayMore (skipJsonWs r)
  | fuel + 1, JTask.arrayMore, s =>
    match s with
    | ',' :: rest =>
      match jsonRun fuel JTask.value (skipJsonWs rest) with
      | none => none
      | some r => jsonRun fuel JTask.arrayMore (skipJsonWs r)
    | ']' :: rest => some rest
    | _ => none
  | fuel + 1, JTask.objectRest, s =>
    match s with
    | c :: rest =>
      if c = Char.ofNat 125 then some rest
      else jsonRun fuel JTask.member (c :: rest)
    | [] => none
  | fuel + 1, JTask.member, s =>
    match s with
    | '"' :: r0 =>
      match jsonStringRest (r0.length + 1) r0 with
      | none => none
      | some r1 =>
        match skipJsonWs r1 with
        | ':' :: r2 =>
          match jsonRun fuel JTask.value (skipJsonWs r2) with
          | none => none
          | some r3 => jsonRun fuel JTask.objectMore (skipJsonWs r3)
        | _ => none
    | _ => none
  | fuel + 1, JTask.objectMore, s =>
    match s with
    | c :: rest =>
      if c = Char.ofNat 125 then some rest
      else if c = ',' then jsonRun fuel JTask.member (skipJsonWs rest)
      else none
    | [] => none

/-- `JSON.parse(text)` succeeds exactly when `text` is a complete JSON
text: optional whitespace, one value, optional whitespace, end of input. -/
def jsonAccepts (s : JSStr) : Bool :=
  match jsonRun (4 * s.length + 8) JTask.value (skipJsonWs s) with
  | some r => (skipJsonWs r).isEmpty
  | none => false

/-- Error kinds surfaced by pack parsing: `format` for the two explicit
`throw new Error(...)` checks (bad magic / unsupported version), `range`
for a `RangeError` escaping from `DataView` reads or `Uint8Array` views,
`jsonSyntax` for the `SyntaxError` thrown by `JSON.parse` on a malformed
package-name section. -/
inductive PackErr where
  | format
  | range
  | jsonSyntax
deriving DecidableEq, Repr

/-- Lift an out-of-bounds buffer access to the thrown `RangeError`. -/
def orRange {α : Type} : Option α → Except PackErr α
  | some a => Except.ok a
  | none => Except.error PackErr.range

/-- One record of `ToolchainLoader.packageIndex` (src/unnamed/part_006):
name bytes and the absolute `(offset, size)` recorded by `parseToolchain`. -/
structure PackEntry where
  name : Bytes
  offset : Nat
  size : Nat
deriving DecidableEq, Repr

/-- The state `ToolchainLoader.parseToolchain` leaves behind
(src/unnamed/part_006 lines 171-245): the two extracted wasm blobs, the raw
bytes of the package-name JSON section (`JSON.parse` of its decoded text
must succeed — see `parseToolchain` — and the parsed name array is kept
here as the raw section bytes, since no accessor any claim touches reads
the decoded names), `packageDataStart`, and the package index. -/
structure ParsedToolchain where
  compilerWasm : Bytes
  linkerWasm : Bytes
  packageNamesJson : Bytes
  packageDataStart : Nat
  packageIndex : List PackEntry
deriving DecidableEq, Repr

/-- The ASCII bytes of the literal `GOSCRIPT`. `parseToolchain` decodes the
first 8 bytes with `TextDecoder` and compares the string to `GOSCRIPT`;
since `GOSCRIPT` has a unique UTF-8 encoding and `TextDecoder` maps no other
byte sequence to it, the comparison is equivalent to byte equality. -/
def goscriptMagic : Bytes := [71, 79, 83, 67, 82, 73, 80, 84]

/-- The package-index walk of `ToolchainLoader.parseToolchain`
(src/unnamed/part_006 lines 224-244): `count` entries starting at
`indexPos`, each `(u16 nameLen, name, u64 dataOffset, u32 dataSize)`,
recording `(packageDataStart + dataOffset, dataSize)`. The JS `Map.set`
insertion order is kept as a list; lookup below takes the last entry for a
name, matching `Map.set` overwrite semantics. -/
def parsePackageIndex (p : Bytes) (dataStart : Nat) : Nat → Nat → Except PackErr (List PackEntry)
  | _, 0 => Except.ok []
  | indexPos, count + 1 => do
    let nameLen ← orRange (readLE p indexPos 2)
    let name ← orRange (typedView p (indexPos + 2) nameLen)
    let pkgOffset ← orRange (readLE p (indexPos + 2 + nameLen) 8)
    let pkgSize ← orRange (readLE p (indexPos + 10 + nameLen) 4)
    let rest ← parsePackageIndex p dataStart (indexPos + 14 + nameLen) count
    Except.ok (⟨name, dataStart + pkgOffset, pkgSize⟩ :: rest)

namespace ToolchainLoader

/-- `ToolchainLoader.parseToolchain` (src/unnamed/part_006 lines 171-245);
the identical parser appears as `GoScript._parseToolchainPack`
(src/sdk/goscript.js lines 427-499). Magic and version failures throw the
two explicit errors (`format`); `JSON.parse` of the decoded package-name
section (part_006 line 208, goscript.js line 461) throws `SyntaxError`
on malformed JSON (`jsonSyntax`); every other failure is a `RangeError`
from an out-of-bounds read (`range`). Note that the compiler and linker
sections are taken with the clamping `slice`, while the JSON section and
the index names use throwing `Uint8Array` views — exactly as in the source. -/
def parseToolchain (p : Bytes) : Except PackErr ParsedToolchain := do
  let magic ← orRange (typedView p 0 8)
  if magic ≠ goscriptMagic then throw PackErr.format
  let version ← orRange (readLE p 8 4)
  if version ≠ 2 then throw PackErr.format
  let compilerSize ← orRange (readLE p 12 4)
  let compilerWasm := jsSlice p 16 (16 + compilerSize)
  let off1 := 16 + compilerSize
  let linkerSize ← orRange (readLE p off1 4)
  let linkerWasm := jsSlice p (off1 + 4) (off1 + 4 + linkerSize)
  let off2 := off1 + 4 + linkerSize
  let indexSize ← orRange (readLE p off2 4)
  let packageNamesJson ← orRange (typedView p (off2 + 4) indexSize)
  if jsonAccepts (utf8Decode packageNamesJson) = false then throw PackErr.jsonSyntax
  let off3 := off2 + 4 + indexSize
  let packageCount ← orRange (readLE p off3 4)
  let indexOffset ← orRange (readLE p (off3 + 4) 8)
  let packageDataStart := off3 + 12
  let packageIndex ← parsePackageIndex p packageDataStart indexOffset packageCount
  Except.ok ⟨compilerWasm, linkerWasm, packageNamesJson, packageDataStart, packageIndex⟩

/-- `packageIndex.get(name)`: the last `Map.set` for a name wins. -/
def mapGetEntry (idx : List PackEntry) (name : Bytes) : Option PackEntry :=
  (idx.filter (fun e => decide (e.name = name))).getLast?

/-- `ToolchainLoader.getPackage` (src/unnamed/part_006 lines 268-274):
`null` (`none`) when the name is unknown, otherwise a
`new Uint8Array(packData, entry.offset, entry.size)` view — which throws a
`RangeError` when the recorded range overruns the pack. -/
def getPackage (t : ParsedToolchain) (p : Bytes) (name : Bytes) : Except PackErr (Option Bytes) :=
  match mapGetEntry t.packageIndex name with
  | none => Except.ok none
  | some e => (orRange (typedView p e.offset e.size)).map some

end ToolchainLoader

/-- Index entries written by the packer (`tools/pack-toolchain.sh`, the
embedded Node script, lines 138-152): for each package, `(u16 nameLen,
name, u64 offset-relative-to-data-region, u32 size)`, offsets accumulated
in order. -/
def mkPackIndex : List (Bytes × Bytes) → Nat → Bytes
  | [], _ => []
  | (n, d) :: rest, cur =>
    natLE 2 n.length ++ n ++ natLE 8 cur ++ natLE 4 d.length ++ mkPackIndex rest (cur + d.length)

/-- The pack layout written by `tools/pack-toolchain.sh` (Node script,
lines 73-156): magic, version 2, three length-prefixed sections, package
count, absolute index offset (u64), the concatenated package data region,
then the index entries. `36` is the byte length of the fixed-size fields
(8 magic + 4 version + 3×4 section lengths + 4 count + 8 index offset). -/
def mkPack (compiler linker indexJson : Bytes) (pkgs : List (Bytes × Bytes)) : Bytes :=
  let dataRegion := (pkgs.map Prod.snd).flatten
  let indexOffset := 36 + compiler.length + linker.length + indexJson.length + dataRegion.length
  goscriptMagic ++ natLE 4 2 ++
    natLE 4 compiler.length ++ compiler ++
    natLE 4 linker.length ++ linker ++
    natLE 4 indexJson.length ++ indexJson ++
    natLE 4 pkgs.length ++ natLE 8 indexOffset ++
    dataRegion ++ mkPackIndex pkgs 0

/-! Lemmas about the byte-buffer primitives. -/

/-! Round-trip between the packer and `parseToolchain`. -/

def mapSet {κ α : Type} [DecidableEq κ] : List (κ × α) → κ → α → List (κ × α)
  | [], k, v => [(k, v)]
  | (k2, v2) :: rest, k, v =>
    if k2 = k then (k2, v) :: rest else (k2, v2) :: mapSet rest k v

def mapGet {κ α : Type} [DecidableEq κ] : List (κ × α) → κ → Option α
  | [], _ => none
  | (k2, v2) :: rest, k => if k2 = k then some v2 else mapGet rest k

def setAdd {κ : Type} [DecidableEq κ] (s : List κ) (k : κ) : List κ :=
  if k ∈ s then s else s ++ [k]

/-- `content` values held by the virtual filesystems: a JS string or a
`Uint8Array`; the stores preserve whatever was written. -/
inductive VContent where
  | str (s : JSStr)
  | bytes (b : Bytes)
deriving DecidableEq, Repr

/-- The only defined VFS failure: `NotFound` (a thrown
`File not found` / `ENOENT` error). -/
inductive VfsErr where
  | notFound
deriving DecidableEq, Repr

/-- `path.startsWith('/')`. -/
def startsWithSlash : JSStr → Bool
  | '/' :: _ => true
  | _ => false

/-- `path.endsWith('/')`. -/
def endsWithSlash (p : JSStr) : Bool :=
  match p.getLast? with
  | some '/' => true
  | _ => false

/-- `path.split(sep)` for a single-character separator. -/
def splitChar (sep : Char) : List Char → List (List Char)
  | [] => [[]]
  | c :: rest =>
    match splitChar sep rest with
    | [] => [[]]
    | h :: t => if c = sep then [] :: h :: t else (c :: h) :: t

/-- `path.replace(/\/+/g, '/')`: collapse every run of slashes to one. -/
def collapseSlashes : List Char → List Char
  | [] => []
  | [c] => [c]
  | a :: b :: rest =>
    if a = '/' ∧ b = '/' then collapseSlashes (b :: rest)
    else a :: collapseSlashes (b :: rest)

/-- `VirtualFileSystem` (src/unnamed/part_002): files map, directory set and
working directory. The constructor starts with empty files, an empty
directory set and working directory `/`. -/
structure VirtualFileSystem where
  files : List (JSStr × VContent)
  directories : List JSStr
  workingDirectory : JSStr
deriving DecidableEq, Repr

namespace VirtualFileSystem

def empty : VirtualFileSystem := ⟨[], [], ['/']⟩

/-- `VirtualFileSystem.normalizePath` (src/unnamed/part_002 lines 210-215):
prepend `/` when missing and collapse duplicate separators — nothing else;
`.` and `..` segments are left as they are. -/
def normalizePath (path : JSStr) : JSStr :=
  collapseSlashes (if startsWithSlash path then path else '/' :: path)

/-- `VirtualFileSystem.getDirectory` (src/unnamed/part_002 lines 217-221). -/
def getDirectory (filePath : JSStr) : JSStr :=
  let parts := splitChar '/' filePath
  let joined := List.intercalate ['/'] parts.dropLast
  if joined = [] then ['/'] else joined

/-- `VirtualFileSystem.ensureDirectoryExists` (src/unnamed/part_002 lines
223-227): adds only the immediate parent, and only when it is not `/`. -/
def ensureDirectoryExists (dirs : List JSStr) (dirPath : JSStr) : List JSStr :=
  if dirPath = ['/'] then dirs else setAdd dirs dirPath

/-- `VirtualFileSystem.writeFile` (src/unnamed/part_002 lines 18-23). -/
def writeFile (fs : VirtualFileSystem) (path : JSStr) (content : VContent) : VirtualFileSystem :=
  let normalizedPath := normalizePath path
  { fs with
    files := mapSet fs.files normalizedPath content,
    directories := ensureDirectoryExists fs.directories (getDirectory normalizedPath) }

/-- `VirtualFileSystem.readFile` (src/unnamed/part_002 lines 30-36). -/
def readFile (fs : VirtualFileSystem) (path : JSStr) : Except VfsErr VContent :=
  match mapGet fs.files (normalizePath path) with
  | some c => Except.ok c
  | none => Except.error VfsErr.notFound

/-- `VirtualFileSystem.exists` (src/unnamed/part_002 lines 43-46); `exists`
is a reserved word in Lean, hence the name. -/
def existsFile (fs : VirtualFileSystem) (path : JSStr) : Bool :=
  (mapGet fs.files (normalizePath path)).isSome

/-- `VirtualFileSystem.mkdir` (src/unnamed/part_002 lines 97-101). -/
def mkdir (fs : VirtualFileSystem) (path : JSStr) : VirtualFileSystem :=
  { fs with directories := setAdd fs.directories (normalizePath path) }

end VirtualFileSystem

namespace Sdk

/-- `VirtualFS` (src/sdk/goscript.js lines 621-750): the SDK's virtual
filesystem. The constructor starts with empty files, directory set `{'/'}`
and working directory `/`. -/
structure VirtualFS where
  files : List (JSStr × VContent)
  directories : List JSStr
  workingDirectory : JSStr
deriving DecidableEq, Repr

namespace VirtualFS

def empty : VirtualFS := ⟨[], [['/']], ['/']⟩

/-- `VirtualFS._normalize` (src/sdk/goscript.js lines 720-734): prepend `/`
when missing, split on `/`, drop empty and `.` segments, resolve `..` by
popping, rejoin with `/` under a leading `/`. -/
def _normalize (path : JSStr) : JSStr :=
  let path1 := if startsWithSlash path then path else '/' :: path
  let parts := (splitChar '/' path1).filter (fun p => decide (p ≠ []) && decide (p ≠ ['.']))
  let resolved := parts.foldl
    (fun acc part => if part = ['.', '.'] then acc.dropLast else acc ++ [part]) []
  '/' :: List.intercalate ['/'] resolved

/-- `VirtualFS._dirname` (src/sdk/goscript.js lines 737-741). -/
def _dirname (path : JSStr) : JSStr :=
  let parts := splitChar '/' path
  let joined := List.intercalate ['/'] parts.dropLast
  if joined = [] then ['/'] else joined

/-- `VirtualFS._ensureDir` (src/sdk/goscript.js lines 744-749), recursion on
`_dirname` expressed with explicit fuel; in the source the recursion
terminates because `_dirname` never lengthens the path and reaches `/`. -/
def _ensureDirFuel : Nat → List JSStr → JSStr → List JSStr
  | 0, dirs, _ => dirs
  | fuel + 1, dirs, path =>
    if path ≠ [] ∧ path ≠ ['/'] then
      _ensureDirFuel fuel (setAdd dirs path) (_dirname path)
    else dirs

def _ensureDir (dirs : List JSStr) (path : JSStr) : List JSStr :=
  _ensureDirFuel (path.length + 1) dirs path

/-- `VirtualFS.writeFile` (src/sdk/goscript.js lines 633-637). -/
def writeFile (fs : VirtualFS) (path : JSStr) (content : VContent) : VirtualFS :=
  let normalized := _normalize path
  { fs with
    files := mapSet fs.files normalized content,
    directories := _ensureDir fs.directories (_dirname normalized) }

/-- `VirtualFS.readFile` (src/sdk/goscript.js lines 644-650). -/
def readFile (fs : VirtualFS) (path : JSStr) : Except VfsErr VContent :=
  match mapGet fs.files (_normalize path) with
  | some c => Except.ok c
  | none => Except.error VfsErr.notFound

/-- `VirtualFS.exists` (src/sdk/goscript.js lines 657-659); `exists` is a
reserved word in Lean, hence the name. -/
def existsFile (fs : VirtualFS) (path : JSStr) : Bool :=
  (mapGet fs.files (_normalize path)).isSome

/-- `VirtualFS.mkdir` (src/sdk/goscript.js lines 665-667). -/
def mkdir (fs : VirtualFS) (path : JSStr) : VirtualFS :=
  { fs with directories := setAdd fs.directories (_normalize path) }

end VirtualFS

end Sdk

/-! The text side of the FS shim: `String.prototype.trimEnd` and
`TextEncoder.encode` (`TextDecoder.decode` is defined with the byte-buffer
primitives above, since pack parsing also decodes text). -/

/-- `TextEncoder.encode` on a string already modelled as code points. -/
def utf8Encode (s : JSStr) : Bytes :=
  s.flatMap fun c =>
    let v := c.toNat
    if v < 0x80 then [v]
    else if v < 0x800 then [0xC0 + v / 64, 0x80 + v % 64]
    else if v < 0x10000 then [0xE0 + v / 4096, 0x80 + v / 64 % 64, 0x80 + v % 64]
    else [0xF0 + v / 262144, 0x80 + v / 4096 % 64, 0x80 + v / 64 % 64, 0x80 + v % 64]

/-- The WHATWG / ECMAScript white-space and line-terminator code points
removed by `String.prototype.trimEnd`. -/
def jsWhitespace (c : Char) : Bool :=
  let v := c.toNat
  (0x09 ≤ v ∧ v ≤ 0x0D) ∨ v = 0x20 ∨ v = 0xA0 ∨ v = 0x1680 ∨
    (0x2000 ≤ v ∧ v ≤ 0x200A) ∨ v = 0x2028 ∨ v = 0x2029 ∨ v = 0x202F ∨
    v = 0x205F ∨ v = 0x3000 ∨ v = 0xFEFF

/-- `text.trimEnd()`. -/
def jsTrimEnd (s : JSStr) : JSStr :=
  (s.reverse.dropWhile jsWhitespace).reverse

/-! Normal-form lemmas for `Sdk.VirtualFS._normalize`. -/

/-! FS-shim models: the SDK `FSPolyfill` (src/sdk/goscript.js lines
761-998) and the script `FSPolyfill` (src/script/fs-polyfill.js). -/

/-- Shim error kinds: `badFD` is the thrown `EBADF`, `enoent` the `ENOENT`
callback error. -/
inductive FsErr where
  | badFD
  | enoent
deriving DecidableEq, Repr

/-- One file-descriptor record: `{ path, flags, content, position }`. -/
structure FDRec where
  path : JSStr
  flags : Nat
  content : Bytes
  position : Nat
deriving DecidableEq, Repr

/-- Relative-path resolution shared verbatim by both shims' `open` and
`stat` (src/sdk/goscript.js lines 833-835, src/script/fs-polyfill.js lines
93-95): an absolute path is kept; a relative one is appended to the VFS
working directory, with a separating `/` unless the directory already ends
in one. -/
def resolveAgainstCwd (wd p : JSStr) : JSStr :=
  if startsWithSlash p then p
  else wd ++ (if endsWithSlash wd then [] else ['/']) ++ p

namespace Sdk

/-- The SDK `FSPolyfill` state (src/sdk/goscript.js lines 761-767):
the backing `VirtualFS`, the fd table, and `nextFd` (initially 100).
The `outputCallback` sink is modelled by returning the list of texts a
call delivers to it. -/
structure FSPolyfill where
  vfs : VirtualFS
  fds : List (Nat × FDRec)
  nextFd : Nat
deriving DecidableEq, Repr

namespace FSPolyfill

/-- `fs.writeSync(fd, buf)` (src/sdk/goscript.js lines 775-794): fd 1/2
deliver the decoded text to the output callback and return the byte count;
a known fd appends `buf` to the record's content, flushes the whole content
to the VFS and returns the byte count; an unknown fd throws `EBADF`.
The result carries the return value, the new state, and the texts
delivered to the output sink. -/
def writeSync (st : FSPolyfill) (fd : Nat) (buf : Bytes) :
    Except FsErr (Nat × FSPolyfill × List JSStr) :=
  if fd = 1 ∨ fd = 2 then
    Except.ok (buf.length, st, [utf8Decode buf])
  else
    match mapGet st.fds fd with
    | none => Except.error FsErr.badFD
    | some file =>
      let newContent := file.content ++ buf
      Except.ok (buf.length,
        { st with
          fds := mapSet st.fds fd { file with content := newContent },
          vfs := st.vfs.writeFile file.path (VContent.bytes newContent) }, [])

/-- `fs.open(path, flags, mode, callback)` (src/sdk/goscript.js lines
831-871): resolve a relative path against the VFS working directory,
normalize, load a byte copy of an existing file (encoding strings), fail
`ENOENT` when absent and `O_CREAT` (64) unset, truncate under `O_TRUNC`
(512), then allocate a fresh fd. `openFile` because `open` is a Lean
keyword; the unused `mode` argument is kept from the JS signature. -/
def openFile (st : FSPolyfill) (path : JSStr) (flags : Nat) (_mode : Nat) :
    Except FsErr (Nat × FSPolyfill) :=
  let resolved := resolveAgainstCwd st.vfs.workingDirectory path
  let p := VirtualFS._normalize resolved
  let content? : Option Bytes :=
    if st.vfs.existsFile p then
      match st.vfs.readFile p with
      | Except.ok (VContent.str s) => some (utf8Encode s)
      | Except.ok (VContent.bytes b) => some b
      | Except.error _ => none
    else
      if Nat.land flags 64 = 0 then none else some []
  match content? with
  | none => Except.error FsErr.enoent
  | some content =>
    let content2 := if Nat.land flags 512 ≠ 0 then [] else content
    let fd := st.nextFd
    Except.ok (fd,
      { st with
        nextFd := fd + 1,
        fds := mapSet st.fds fd ⟨p, flags, content2, 0⟩ })

end FSPolyfill

end Sdk

namespace Script

/-- The script `FSPolyfill` state (src/script/fs-polyfill.js lines 6-11):
backed by the part_002 `VirtualFileSystem`; `nextFd` starts at 100. -/
structure FSPolyfill where
  vfs : VirtualFileSystem
  fds : List (Nat × FDRec)
  nextFd : Nat
deriving DecidableEq, Repr

/-- One delivery to a host output sink by the script shim: the installed
capture callback `window.addConsoleOutput`, or `console.log` when no
capture is installed. -/
inductive SinkEvent where
  | captured (text : JSStr)
  | consoled (text : JSStr)
deriving DecidableEq, Repr

namespace FSPolyfill

/-- `fs.writeSync(fd, buf)` (src/script/fs-polyfill.js lines 24-48):
fd 1/2 deliver `text.trimEnd()` to `window.addConsoleOutput` when that
capture sink is installed (`hasCapture`), else the raw text to
`console.log`; a known fd appends and flushes to the VFS; an unknown fd
throws `EBADF`. -/
def writeSync (st : FSPolyfill) (hasCapture : Bool) (fd : Nat) (buf : Bytes) :
    Except FsErr (Nat × FSPolyfill × List SinkEvent) :=
  if fd = 1 ∨ fd = 2 then
    if hasCapture then
      Except.ok (buf.length, st, [SinkEvent.captured (jsTrimEnd (utf8Decode buf))])
    else
      Except.ok (buf.length, st, [SinkEvent.consoled (utf8Decode buf)])
  else
    match mapGet st.fds fd with
    | none => Except.error FsErr.badFD
    | some file =>
      let newContent := file.content ++ buf
      Except.ok (buf.length,
        { st with
          fds := mapSet st.fds fd { file with content := newContent },
          vfs := st.vfs.writeFile file.path (VContent.bytes newContent) }, [])

/-- `fs.open(path, flags, mode, callback)` (src/script/fs-polyfill.js lines
90-131): resolve a relative path against the VFS working directory,
normalize with the part_002 `normalizePath`, load a byte copy of an
existing file (encoding strings), fail `ENOENT` when absent and `O_CREAT`
(64) unset, truncate under `O_TRUNC` (512), then allocate a fresh fd.
`openFile` because `open` is a Lean keyword; the unused `mode` argument is
kept from the JS signature. -/
def openFile (st : FSPolyfill) (path : JSStr) (flags : Nat) (_mode : Nat) :
    Except FsErr (Nat × FSPolyfill) :=
  let resolved := resolveAgainstCwd st.vfs.workingDirectory path
  let p := VirtualFileSystem.normalizePath resolved
  let content? : Option Bytes :=
    if st.vfs.existsFile p then
      match st.vfs.readFile p with
      | Except.ok (VContent.str s) => some (utf8Encode s)
      | Except.ok (VContent.bytes b) => some b
      | Except.error _ => none
    else
      if Nat.land flags 64 = 0 then none else some []
  match content? with
  | none => Except.error FsErr.enoent
  | some content =>
    let content2 := if Nat.land flags 512 ≠ 0 then [] else content
    let fd := st.nextFd
    Except.ok (fd,
      { st with
        nextFd := fd + 1,
        fds := mapSet st.fds fd ⟨p, flags, content2, 0⟩ })

end FSPolyfill

end Script

/-! The artifact-cache source hash: `CacheManager.generateSourceHash` and
`CacheManager.simpleHash` (src/src/core/cache-manager.js lines 208-225). -/

/-- The UTF-16 code units of a JS string (what `charCodeAt` iterates). -/
def utf16Units (s : JSStr) : List Nat :=
  s.flatMap fun c =>
    let v := c.toNat
    if v < 65536 then [v]
    else [55296 + (v - 65536) / 1024, 56320 + (v - 65536) % 1024]

/-- `ToInt32`: reduce a JS number (already integral) to a signed 32-bit
value. -/
def toInt32 (n : Int) : Int :=
  let m := n.emod 4294967296
  if m < 2147483648 then m else m - 4294967296

/-- One iteration of `simpleHash` (cache-manager.js lines 219-222):
`hash = ((hash << 5) - hash) + char; hash = hash & hash`. `hash << 5` is
`ToInt32(hash) * 32` wrapped to int32, and `hash & hash` is `ToInt32`. -/
def simpleHashStep (hash : Int) (char : Nat) : Int :=
  toInt32 (toInt32 (toInt32 hash * 32) - hash + char)

def base36Char (d : Nat) : Char :=
  if d < 10 then Char.ofNat (48 + d) else Char.ofNat (87 + d)

/-- `Math.abs(hash).toString(36)`, digits via explicit fuel (`n / 36`
strictly decreases in the source loop). -/
def toBase36Fuel : Nat → Nat → JSStr
  | 0, _ => []
  | fuel + 1, n =>
    if n < 36 then [base36Char n]
    else toBase36Fuel fuel (n / 36) ++ [base36Char (n % 36)]

def toBase36 (n : Nat) : JSStr := toBase36Fuel (n + 1) n

namespace CacheManager

/-- `CacheManager.simpleHash(str)` (cache-manager.js lines 217-225). -/
def simpleHash (str : JSStr) : JSStr :=
  toBase36 ((utf16Units str).foldl simpleHashStep 0).natAbs

end CacheManager

def hexDigit (d : Nat) : Char :=
  if d < 10 then Char.ofNat (48 + d) else Char.ofNat (87 + d)

/-- `JSON.stringify` escaping of one character of a string value. -/
def jsonEscapeChar (c : Char) : JSStr :=
  if c = '"' then ['\\', '"']
  else if c = '\\' then ['\\', '\\']
  else if c = Char.ofNat 8 then ['\\', 'b']
  else if c = Char.ofNat 9 then ['\\', 't']
  else if c = Char.ofNat 10 then ['\\', 'n']
  else if c = Char.ofNat 12 then ['\\', 'f']
  else if c = Char.ofNat 13 then ['\\', 'r']
  else if c.toNat < 32 then
    ['\\', 'u', '0', '0', hexDigit (c.toNat / 16), hexDigit (c.toNat % 16)]
  else [c]

def jsonQuote (s : JSStr) : JSStr :=
  '"' :: (s.flatMap jsonEscapeChar ++ ['"'])

/-- Lexicographic order on JS strings by code point — the order
`Array.prototype.sort()` applies to the path keys (identical to the UTF-16
code-unit order for paths within the basic multilingual plane). -/
def lexLe : JSStr → JSStr → Bool
  | [], _ => true
  | _ :: _, [] => false
  | a :: as, b :: bs =>
    if a.toNat < b.toNat then true
    else if b.toNat < a.toNat then false
    else lexLe as bs

/-- `Object.keys(sourceFiles).sort()`: the path keys in ascending order.
(`Array.prototype.sort` is modelled by insertion sort; the sorted result is
the same for any correct sort of a total order.) -/
def sortedKeys (files : List (JSStr × JSStr)) : List JSStr :=
  List.insertionSort (fun a b => lexLe a b = true) (files.map Prod.fst)

/-- `JSON.stringify(sourceFiles, Object.keys(sourceFiles).sort())`
(cache-manager.js line 209): with an array replacer, `JSON.stringify`
serializes exactly the listed keys in the array's order. 123 and 125 are
the brace code points. -/
def jsonStringifySorted (files : List (JSStr × JSStr)) : JSStr :=
  Char.ofNat 123 ::
    (List.intercalate [','] ((sortedKeys files).map fun k =>
      jsonQuote k ++ ':' :: jsonQuote ((mapGet files k).getD []))) ++ [Char.ofNat 125]

namespace CacheManager

/-- `CacheManager.generateSourceHash(sourceFiles)` (cache-manager.js lines
208-211). -/
def generateSourceHash (sourceFiles : List (JSStr × JSStr)) : JSStr :=
  simpleHash (jsonStringifySorted sourceFiles)

end CacheManager

/-- The canonical form the claim describes, following the specification's
words: the files sorted by path, each length-prefixed (path length, path
bytes, content length, content bytes), concatenated. -/
def specCanonicalForm (files : List (JSStr × JSStr)) : List Nat :=
  ((sortedKeys files).map fun k =>
    let pb := utf8Encode k
    let cb := utf8Encode ((mapGet files k).getD [])
    pb.length :: pb ++ cb.length :: cb).flatten

/-! The compilation pipeline driver of the script family:
`CompilationManager` (src/unnamed/part_005) with its `CacheManager`-backed
artifact cache (src/src/core/cache-manager.js). The persistent IndexedDB
store `compiledWasm` is modelled as an in-memory association list from the
record key `wasm_<hash>` to the cached binary (the metadata and timestamp
fields of the record are not consulted by any claim and are omitted). The
foreign-compiler stage `compileToWasm` — which runs the real toolchain and
falls back to a generated mock binary if it fails, but in all cases returns
bytes without throwing — is abstracted as the oracle `runCompiler`. The
temporary files `runGoCompiler` writes under `/tmp` are part of that
oracle's effect and are not tracked separately. -/

namespace CacheManager

/-- The `compiledWasm` store key for a source hash: `wasm_<hash>`
(cache-manager.js line 144 / 179). -/
def cacheKey (sourceHash : JSStr) : JSStr := js "wasm_" ++ sourceHash

end CacheManager

/-- Result of a successful `CompilationManager.compile`, instrumented with
the cache-check outcome and whether the compiler stage ran (the spy on the
foreign-compiler invocation the specification mentions). -/
structure CompileOk where
  wasmBinary : Bytes
  fromCache : Bool
  compilerRan : Bool
deriving DecidableEq, Repr

/-- `CompilationManager` state: the artifact cache and the VFS. -/
structure CompilationManager where
  cache : List (JSStr × Bytes)
  vfs : VirtualFileSystem
deriving DecidableEq, Repr

namespace CompilationManager

/-- `CompilationManager.validateWasmBinary` (src/unnamed/part_005 lines
412-424): at least 8 bytes and the first FOUR bytes equal to
`00 61 73 6D`; the version bytes are not checked. -/
def validateWasmBinary (wasmBinary : Bytes) : Bool :=
  if wasmBinary.length < 8 then false
  else decide (wasmBinary.getD 0 0 = 0) && decide (wasmBinary.getD 1 0 = 0x61) &&
    decide (wasmBinary.getD 2 0 = 0x73) && decide (wasmBinary.getD 3 0 = 0x6d)

/-- `CompilationManager.compile` (src/unnamed/part_005 lines 44-116).
Stage 1 (`loadCompiler`) fetches the toolchain pack bytes but never
instantiates the foreign compiler module, and is not tracked here.
Stage 2 computes the source hash and returns the cached binary on a hit;
on a miss, stages 3-4 write sources and build directories into the VFS,
stage 5 produces the binary (oracle), stage 6 caches it — before stage 7
validates it and writes `/output/main.wasm`, so an invalid binary is
cached and then the call throws `Invalid WASM binary generated`. -/
def compile (cm : CompilationManager) (runCompiler : List (JSStr × JSStr) → Bytes)
    (sourceFiles : List (JSStr × JSStr)) :
    Except JSStr CompileOk × CompilationManager :=
  let sourceHash := CacheManager.generateSourceHash sourceFiles
  match mapGet cm.cache (CacheManager.cacheKey sourceHash) with
  | some cached => (Except.ok ⟨cached, true, false⟩, cm)
  | none =>
    let vfs1 := sourceFiles.foldl (fun v kv => v.writeFile kv.1 (VContent.str kv.2)) cm.vfs
    let vfs1 := ((vfs1.mkdir (js "/src")).mkdir (js "/pkg")).mkdir (js "/bin")
    let vfs2 := ((vfs1.mkdir (js "/tmp")).mkdir (js "/build")).mkdir (js "/output")
    let vfs2 := vfs2.writeFile (js "/build/config.json") (VContent.str (js "buildConfig"))
    let wasmBinary := runCompiler sourceFiles
    let cache2 := mapSet cm.cache (CacheManager.cacheKey sourceHash) wasmBinary
    if validateWasmBinary wasmBinary then
      (Except.ok ⟨wasmBinary, false, true⟩,
        ⟨cache2, vfs2.writeFile (js "/output/main.wasm") (VContent.bytes wasmBinary)⟩)
    else
      (Except.error (js "Invalid WASM binary generated"), ⟨cache2, vfs2⟩)

end CompilationManager

/-- The values `this.status` takes in part_005: `idle` (the constructor,
line 11), `compiling` (line 46), `complete` (lines 67, 106), `error`
(line 112). -/
inductive CMStatus where
  | idle
  | compiling
  | complete
  | error
deriving DecidableEq, Repr

/-- `CompilationManager.compile` with the `this.status` writes tracked
(src/unnamed/part_005 lines 44-116). The method's first action is
`this.status = 'compiling'` (line 46), an unconditional overwrite: no
statement of the function reads the incoming status, so there is no busy
rejection — whatever status the call finds (`compiling` included), the
staged pipeline modelled by `compile` runs in full, and the status ends
`complete` on a normal return (lines 67, 106) or `error` when the pipeline
throws (line 112). -/
def CompilationManager.compileTracked (cm : CompilationManager) (_status : CMStatus)
    (runCompiler : List (JSStr × JSStr) → Bytes) (sourceFiles : List (JSStr × JSStr)) :
    (Except JSStr CompileOk × CompilationManager) × CMStatus :=
  let r := CompilationManager.compile cm runCompiler sourceFiles
  (r, match r.1 with
    | Except.ok _ => CMStatus.complete
    | Except.error _ => CMStatus.error)

namespace Sdk

/-- The SDK driver state flags (src/sdk/goscript.js lines 85-89). -/
structure GoScriptState where
  initialized : Bool
  compilerReady : Bool
  compiling : Bool
deriving DecidableEq, Repr

/-- Errors `GoScript.compile` throws before entering its try block
(src/sdk/goscript.js lines 170-177): not initialized, or a compilation
already in progress (`Busy`). -/
inductive GsThrow where
  | notInitialized
  | busy
deriving DecidableEq, Repr

/-- The result object `GoScript.compile` returns from its try/catch
(metadata timings omitted). -/
structure CompileResult where
  success : Bool
  wasm : Option VContent
  error : Option JSStr
deriving DecidableEq, Repr

/-- The SDK driver: state flags and the VFS. The toolchain blobs and the
polyfill are not consulted by the modelled control flow. -/
structure GoScript where
  state : GoScriptState
  vfs : VirtualFS
deriving DecidableEq, Repr

namespace GoScript

/-- `GoScript.compile` (src/sdk/goscript.js lines 170-248). Throws when not
initialized or when `state.compiling` is set; otherwise sets `compiling`,
writes the sources under `/tmp/build`, runs compiler then linker (the
foreign modules' filesystem effects are the two oracle functions), checks
for their declared outputs, reads the final binary, and clears `compiling`
in the `finally`. Pipeline faults are caught and returned as
`success: false` result objects. -/
def compile (g : GoScript) (compilerEffect linkerEffect : VirtualFS → VirtualFS)
    (source : List (JSStr × JSStr)) :
    Except GsThrow CompileResult × GoScript :=
  if g.state.initialized = false then (Except.error GsThrow.notInitialized, g)
  else if g.state.compiling = true then (Except.error GsThrow.busy, g)
  else
    let vfs1 := g.vfs.mkdir (js "/tmp/build")
    let vfs2 := source.foldl
      (fun v kv => v.writeFile (js "/tmp/build/" ++ kv.1) (VContent.str kv.2)) vfs1
    let vfs3 := compilerEffect vfs2
    if vfs3.existsFile (js "/tmp/build/main.o") = false then
      (Except.ok ⟨false, none, some (js "Compiler failed to produce output")⟩,
        ⟨{ g.state with compiling := false }, vfs3⟩)
    else
      let vfs4 := linkerEffect vfs3
      if vfs4.existsFile (js "/tmp/build/main.wasm") = false then
        (Except.ok ⟨false, none, some (js "Linker failed to produce output")⟩,
          ⟨{ g.state with compiling := false }, vfs4⟩)
      else
        match vfs4.readFile (js "/tmp/build/main.wasm") with
        | Except.ok w =>
          (Except.ok ⟨true, some w, none⟩, ⟨{ g.state with compiling := false }, vfs4⟩)
        | Except.error _ =>
          (Except.ok ⟨false, none, some (js "Compilation failed: no output generated")⟩,
            ⟨{ g.state with compiling := false }, vfs4⟩)

end GoScript

end Sdk

example :
    ToolchainLoader.parseToolchain (mkPack [1, 2] [3] [91, 93] [([97], [9, 9, 9])]) =
      Except.ok ⟨[1, 2], [3], [91, 93], 41, [⟨[97], 41, 3⟩]⟩ := by rfl

theorem orRange_some_bind {α β : Type} (v : α) (f : α → Except PackErr β) :
    (orRange (some v) >>= f) = f v := rfl

theorem orRange_ne_format_bind {α β : Type} (o : Option α) (f : α → Except PackErr β)
    (hf : ∀ a, f a ≠ Except.error PackErr.format) :
    (orRange o >>= f) ≠ Except.error PackErr.format := by
  cases o with
  | none =>
    show Except.error PackErr.range >>= f ≠ Except.error PackErr.format
    intro h
    simp [Bind.bind, Except.bind] at h
  | some a =>
    show Except.ok a >>= f ≠ Except.error PackErr.format
    exact hf a

theorem parsePackageIndex_ne_format :
    ∀ (p : Bytes) (ds pos n : Nat),
      parsePackageIndex p ds pos n ≠ Except.error PackErr.format
  | p, ds, pos, 0 => by simp [parsePackageIndex]
  | p, ds, pos, n + 1 => by
    simp only [parsePackageIndex]
    apply orRange_ne_format_bind; intro nameLen
    apply orRange_ne_format_bind; intro name
    apply orRange_ne_format_bind; intro pkgOffset
    apply orRange_ne_format_bind; intro pkgSize
    have ih := parsePackageIndex_ne_format p ds (pos + 14 + nameLen) n
    cases hrec : parsePackageIndex p ds (pos + 14 + nameLen) n with
    | error e =>
      intro h
      have he : e = PackErr.format := by
        simpa [Bind.bind, Except.bind] using h
      exact ih (by rw [hrec, he])
    | ok v =>
      intro h
      simp [Bind.bind, Except.bind] at h

theorem parseToolchain_ne_format_of (p : Bytes)
    (hm : typedView p 0 8 = some goscriptMagic)
    (hvv : readLE p 8 4 = some 2) :
    ToolchainLoader.parseToolchain p ≠ Except.error PackErr.format := by
  simp only [ToolchainLoader.parseToolchain, hm, orRange_some_bind]
  rw [if_neg (by simp)]
  simp only [hvv, orRange_some_bind]
  rw [if_neg (by simp)]
  apply orRange_ne_format_bind; intro compilerSize
  apply orRange_ne_format_bind; intro linkerSize
  apply orRange_ne_format_bind; intro indexSize
  apply orRange_ne_format_bind; intro packageNamesJson
  by_cases hjs : jsonAccepts (utf8Decode packageNamesJson) = false
  case pos =>
    rw [if_pos hjs]
    intro h
    exact PackErr.noConfusion (Except.error.inj h)
  case neg =>
  rw [if_neg hjs]
  apply orRange_ne_format_bind; intro packageCount
  apply orRange_ne_format_bind; intro indexOffset
  have ih := parsePackageIndex_ne_format p
    (16 + compilerSize + 4 + linkerSize + 4 + indexSize + 12) indexOffset packageCount
  cases hrec : parsePackageIndex p
      (16 + compilerSize + 4 + linkerSize + 4 + indexSize + 12) indexOffset packageCount with
  | error e =>
    intro h
    have he : e = PackErr.format := by
      simpa [Bind.bind, Except.bind] using h
    exact ih (by rw [hrec, he])
  | ok v =>
    intro h
    simp [Bind.bind, Except.bind] at h

/-- C3: pack parsing fails with a `Format` error if and only if the first 8
bytes do not equal the ASCII literal `GOSCRIPT` or the following
little-endian unsigned 32-bit version does not equal 2 (stated for buffers
long enough that those fields exist); and a pack whose 8-byte magic is
correct fails with `Format` after any single byte of the magic is altered. -/
theorem c3_magic_version_format (p : Bytes) :
    (12 ≤ p.length →
      (ToolchainLoader.parseToolchain p = Except.error PackErr.format ↔
        (p.take 8 ≠ goscriptMagic ∨ readLE p 8 4 ≠ some 2))) ∧
    (8 ≤ p.length → p.take 8 ≠ goscriptMagic →
      ToolchainLoader.parseToolchain p = Except.error PackErr.format) ∧
    (p.take 8 = goscriptMagic → ∀ i b, i < 8 → b ≠ goscriptMagic.getD i 0 →
      ToolchainLoader.parseToolchain (p.set i b) = Except.error PackErr.format) := by
  have hbadMagic : ∀ q : Bytes, 8 ≤ q.length → q.take 8 ≠ goscriptMagic →
      ToolchainLoader.parseToolchain q = Except.error PackErr.format := by
    intro q h8 hmagic
    have hv : typedView q 0 8 = some (q.take 8) := by
      simp only [typedView, List.drop_zero]
      rw [if_pos (by omega)]
    simp only [ToolchainLoader.parseToolchain, hv, orRange_some_bind]
    rw [if_pos hmagic]
    rfl
  refine ⟨?_, hbadMagic p, ?_⟩
  · intro h12
    have hv : typedView p 0 8 = some (p.take 8) := by
      simp only [typedView, List.drop_zero]
      rw [if_pos (by omega)]
    have hr : readLE p 8 4 = some (decodeLE ((p.drop 8).take 4)) := by
      simp only [readLE]
      rw [if_pos (by omega)]
    constructor
    · intro hfmt
      by_contra hcon
      push_neg at hcon
      refine parseToolchain_ne_format_of p ?_ hcon.2 hfmt
      rw [hv, hcon.1]
    · intro hor
      by_cases hm : p.take 8 = goscriptMagic
      · rcases hor with hmagic | hver
        · exact absurd hm hmagic
        · simp only [ToolchainLoader.parseToolchain, hv, hm, orRange_some_bind]
          rw [if_neg (by simp)]
          simp only [hr, orRange_some_bind]
          rw [if_pos (by intro h2; exact hver (by rw [hr, h2]))]
          rfl
      · exact hbadMagic p (by omega) hm
  · intro hm i b hi hb
    have hlen8 : 8 ≤ p.length := by
      have h := congrArg List.length hm
      rw [List.length_take] at h
      have hgm : goscriptMagic.length = 8 := rfl
      omega
    apply hbadMagic
    · rw [List.length_set]; omega
    · rw [List.set_take, hm]
      intro heq
      have hilen : i < (goscriptMagic.set i b).length := by
        rw [List.length_set]
        have hgm : goscriptMagic.length = 8 := rfl
        omega
      have h3 : (goscriptMagic.set i b).getD i 0 = goscriptMagic.getD i 0 := by rw [heq]
      have h4 : (goscriptMagic.set i b).getD i 0 = b := by
        rw [List.getD_eq_getElem _ _ hilen]
        exact List.getElem_set_self hilen
      exact hb (by rw [← h4, h3])

/-- Concrete instantiation of the C3 theorem at the empty pack: the iff at a
12-byte-or-longer buffer, and `Format` failure after altering the first
magic byte (`G` 0x47 changed to `H` 0x48). -/
theorem c3_magic_version_format_witness :
    (ToolchainLoader.parseToolchain (mkPack [] [] [] []) = Except.error PackErr.format ↔
      ((mkPack [] [] [] []).take 8 ≠ goscriptMagic ∨
        readLE (mkPack [] [] [] []) 8 4 ≠ some 2)) ∧
    ToolchainLoader.parseToolchain ((mkPack [] [] [] []).set 0 72) =
      Except.error PackErr.format :=
  ⟨(c3_magic_version_format (mkPack [] [] [] [])).1 (by decide),
   (c3_magic_version_format (mkPack [] [] [] [])).2.2 (by decide) 0 72 (by decide) (by decide)⟩

/-- C4: evaluation of `parseToolchain` at two malformed packs, both built
from the 59-byte valid pack of the round-trip witness. Setting byte 55 (the
declared `dataSize` of the only package entry) to 100 declares the range
(41, 100), which overruns the 59-byte pack: parsing nevertheless succeeds
and records the out-of-range entry, and the overrun only surfaces as a
range error when `getPackage` builds the view. Setting byte 12 (the low
byte of the declared compiler-section length) to 100 overruns the
remaining buffer: parsing fails with a `range` error from a subsequent
read, not with the `Format` error the specification requires, after
silently clamping the compiler slice. -/
theorem c4_no_parse_time_validation :
    (ToolchainLoader.parseToolchain
        ((mkPack [1, 2] [3] [91, 93] [([97], [9, 9, 9])]).set 55 100) =
      Except.ok ⟨[1, 2], [3], [91, 93], 41, [⟨[97], 41, 100⟩]⟩) ∧
    41 + 100 > ((mkPack [1, 2] [3] [91, 93] [([97], [9, 9, 9])]).set 55 100).length ∧
    (ToolchainLoader.getPackage ⟨[1, 2], [3], [91, 93], 41, [⟨[97], 41, 100⟩]⟩
        ((mkPack [1, 2] [3] [91, 93] [([97], [9, 9, 9])]).set 55 100) [97] =
      Except.error PackErr.range) ∧
    (ToolchainLoader.parseToolchain
        ((mkPack [1, 2] [3] [91, 93] [([97], [9, 9, 9])]).set 12 100) =
      Except.error PackErr.range) := by
  refine ⟨by rfl, by decide, by rfl, by rfl⟩

theorem mapGet_mapSet_self {κ α : Type} [DecidableEq κ] :
    ∀ (m : List (κ × α)) (k : κ) (v : α), mapGet (mapSet m k v) k = some v
  | [], k, v => by simp [mapSet, mapGet]
  | (k2, v2) :: rest, k, v => by
    by_cases h : k2 = k
    · simp [mapSet, mapGet, h]
    · simp only [mapSet, mapGet, if_neg h]
      exact mapGet_mapSet_self rest k v

theorem sdk_writeFile_existsFile (v : Sdk.VirtualFS) (p : JSStr) (c : VContent) :
    (v.writeFile p c).existsFile p = true := by
  simp only [Sdk.VirtualFS.writeFile, Sdk.VirtualFS.existsFile]
  rw [mapGet_mapSet_self]
  rfl

theorem sdk_writeFile_readFile (v : Sdk.VirtualFS) (p : JSStr) (c : VContent) :
    (v.writeFile p c).readFile p = Except.ok c := by
  simp only [Sdk.VirtualFS.writeFile, Sdk.VirtualFS.readFile]
  rw [mapGet_mapSet_self]

theorem script_writeFile_existsFile (v : VirtualFileSystem) (p : JSStr) (c : VContent) :
    (v.writeFile p c).existsFile p = true := by
  simp only [VirtualFileSystem.writeFile, VirtualFileSystem.existsFile]
  rw [mapGet_mapSet_self]
  rfl

theorem foldl_resolved_prop :
    ∀ (parts acc : List JSStr),
      (∀ s ∈ acc, s ≠ [] ∧ s ≠ ['.'] ∧ s ≠ ['.', '.']) →
      (∀ s ∈ parts, s ≠ [] ∧ s ≠ ['.']) →
      ∀ s ∈ parts.foldl
        (fun acc part => if part = ['.', '.'] then acc.dropLast else acc ++ [part]) acc,
        s ≠ [] ∧ s ≠ ['.'] ∧ s ≠ ['.', '.']
  | [], acc, hacc, _, s, hs => hacc s hs
  | p :: rest, acc, hacc, hparts, s, hs => by
    rw [List.foldl_cons] at hs
    by_cases hp : p = ['.', '.']
    · rw [if_pos hp] at hs
      exact foldl_resolved_prop rest acc.dropLast
        (fun t ht => hacc t (List.dropLast_subset _ ht))
        (fun t ht => hparts t (List.mem_cons_of_mem _ ht)) s hs
    · rw [if_neg hp] at hs
      refine foldl_resolved_prop rest (acc ++ [p]) ?_
        (fun t ht => hparts t (List.mem_cons_of_mem _ ht)) s hs
      intro t ht
      rcases List.mem_append.mp ht with h1 | h2
      · exact hacc t h1
      · obtain rfl := List.mem_singleton.mp h2
        obtain ⟨h3, h4⟩ := hparts t (List.mem_cons_self _ _)
        exact ⟨h3, h4, hp⟩

/-- C7 counterexample: the paths `/a/./b` and `/a/b` denote the same file
after the normalization the claim describes (the SDK `_normalize` agrees:
both resolve to `/a/b`), yet `VirtualFileSystem.normalizePath`
(src/unnamed/part_002) leaves the `.` segment in place, so writing through
`/a/./b` and reading back through `/a/b` fails with `NotFound` on that VFS. -/
theorem c7_counterexample :
    Sdk.VirtualFS._normalize (js "/a/./b") = Sdk.VirtualFS._normalize (js "/a/b") ∧
    VirtualFileSystem.normalizePath (js "/a/./b") ≠ VirtualFileSystem.normalizePath (js "/a/b") ∧
    VirtualFileSystem.readFile
      (VirtualFileSystem.writeFile VirtualFileSystem.empty (js "/a/./b") (VContent.str (js "c")))
      (js "/a/b") = Except.error VfsErr.notFound :=
  ⟨rfl, by decide, rfl⟩

/-- C7 (amended): for the SDK `VirtualFS`, normalization produces an
absolute form starting with `/` whose segments are free of empty, `.` and
`..` components, and for all pairs of paths that denote the same file after
normalization, `writeFile p1 c` followed by `readFile p2` returns `c`. For
the part_002 `VirtualFileSystem`, normalization only prepends `/` and
collapses duplicate separators, so the same read-back only holds for paths
that agree under that weaker normalization. -/
theorem c7_path_canonicalization (fs : Sdk.VirtualFS) (p1 p2 : JSStr) (c : VContent)
    (h : Sdk.VirtualFS._normalize p1 = Sdk.VirtualFS._normalize p2) :
    Sdk.VirtualFS.readFile (Sdk.VirtualFS.writeFile fs p1 c) p2 = Except.ok c ∧
    startsWithSlash (Sdk.VirtualFS._normalize p1) = true ∧
    (∃ segs : List JSStr,
      Sdk.VirtualFS._normalize p1 = '/' :: List.intercalate ['/'] segs ∧
      ∀ s ∈ segs, s ≠ [] ∧ s ≠ ['.'] ∧ s ≠ ['.', '.']) := by
  refine ⟨?_, rfl, ?_⟩
  · unfold Sdk.VirtualFS.readFile Sdk.VirtualFS.writeFile
    rw [← h, mapGet_mapSet_self]
  · refine ⟨((splitChar '/' (if startsWithSlash p1 then p1 else '/' :: p1)).filter
      (fun p => decide (p ≠ []) && decide (p ≠ ['.']))).foldl
        (fun acc part => if part = ['.', '.'] then acc.dropLast else acc ++ [part]) [],
      rfl, ?_⟩
    apply foldl_resolved_prop _ [] (by intro s hs; simp at hs)
    intro s hs
    have := List.mem_filter.mp hs
    have h2 := this.2
    simp only [Bool.and_eq_true, decide_eq_true_eq] at h2
    exact h2

/-- Concrete instantiation of the C7 read-back theorem: `/a/./b` and
`//a/b` normalize identically in the SDK VFS, and the write/read round-trip
returns the written content. -/
theorem c7_path_canonicalization_witness :
    Sdk.VirtualFS.readFile
      (Sdk.VirtualFS.writeFile Sdk.VirtualFS.empty (js "/a/./b") (VContent.str (js "x")))
      (js "//a/b") = Except.ok (VContent.str (js "x")) ∧
    startsWithSlash (Sdk.VirtualFS._normalize (js "/a/./b")) = true :=
  ⟨(c7_path_canonicalization Sdk.VirtualFS.empty (js "/a/./b") (js "//a/b")
      (VContent.str (js "x")) (by decide)).1,
   (c7_path_canonicalization Sdk.VirtualFS.empty (js "/a/./b") (js "//a/b")
      (VContent.str (js "x")) (by decide)).2.1⟩

example : utf8Decode [104, 101, 108, 108, 111, 10] = js "hello\n" := by decide
example : utf8Decode [0xE2, 0x82, 0xAC] = js "€" := by decide

example : jsTrimEnd (js "hello\n") = js "hello" := by decide

theorem splitChar_ne_nil (sep : Char) : ∀ (l : List Char), splitChar sep l ≠ []
  | [] => by simp [splitChar]
  | c :: rest => by
    simp only [splitChar]
    cases hsp : splitChar sep rest with
    | nil => exact absurd hsp (splitChar_ne_nil sep rest)
    | cons h t =>
      by_cases hc : c = sep
      · simp [hc]
      · simp [hc]

theorem splitChar_no_sep (sep : Char) :
    ∀ (l : List Char), ∀ s ∈ splitChar sep l, sep ∉ s
  | [], s, hs => by
    simp only [splitChar, List.mem_singleton] at hs
    simp [hs]
  | c :: rest, s, hs => by
    cases hsp : splitChar sep rest with
    | nil => exact absurd hsp (splitChar_ne_nil sep rest)
    | cons h t =>
      simp only [splitChar, hsp] at hs
      have hht : ∀ u ∈ h :: t, sep ∉ u := by
        rw [← hsp]; exact fun u hu => splitChar_no_sep sep rest u hu
      by_cases hc : c = sep
      · rw [if_pos hc] at hs
        rcases List.mem_cons.mp hs with rfl | hs2
        · simp
        · exact hht s hs2
      · rw [if_neg hc] at hs
        rcases List.mem_cons.mp hs with rfl | hs2
        · intro hmem
          rcases List.mem_cons.mp hmem with h1 | h2
          · exact hc h1.symm
          · exact hht h (List.mem_cons_self _ _) h2
        · exact hht s (List.mem_cons_of_mem _ hs2)

theorem splitChar_no_sep_id (sep : Char) :
    ∀ (l : List Char), sep ∉ l → splitChar sep l = [l]
  | [], _ => rfl
  | c :: rest, h => by
    have hc : c ≠ sep := fun he => h (he ▸ List.mem_cons_self _ _)
    have hrest : sep ∉ rest := fun hm => h (List.mem_cons_of_mem _ hm)
    simp only [splitChar, splitChar_no_sep_id sep rest hrest]
    rw [if_neg hc]

theorem splitChar_append_sep (sep : Char) :
    ∀ (x l : List Char), sep ∉ x → splitChar sep (x ++ sep :: l) = x :: splitChar sep l
  | [], l, _ => by
    simp only [List.nil_append, splitChar]
    cases hsp : splitChar sep l with
    | nil => exact absurd hsp (splitChar_ne_nil sep l)
    | cons h t => simp
  | c :: x, l, hx => by
    have hc : c ≠ sep := fun he => hx (he ▸ List.mem_cons_self _ _)
    have hx2 : sep ∉ x := fun hm => hx (List.mem_cons_of_mem _ hm)
    simp only [List.cons_append, splitChar, List.append_eq,
      splitChar_append_sep sep x l hx2]
    rw [if_neg hc]

theorem intercalate_cons_cons {α : Type} (sep : List α) (x y : List α) (rest : List (List α)) :
    List.intercalate sep (x :: y :: rest) = x ++ sep ++ List.intercalate sep (y :: rest) := by
  simp [List.intercalate, List.intersperse]

theorem splitChar_intercalate (sep : Char) :
    ∀ (segs : List JSStr), segs ≠ [] → (∀ s ∈ segs, sep ∉ s) →
      splitChar sep (List.intercalate [sep] segs) = segs
  | [], h, _ => absurd rfl h
  | [x], _, hsep => by
    simp only [List.intercalate, List.intersperse, List.flatten]
    rw [List.append_nil]
    exact splitChar_no_sep_id sep x (hsep x (List.mem_singleton_self x))
  | x :: y :: rest, _, hsep => by
    rw [intercalate_cons_cons, List.append_assoc, List.singleton_append,
      splitChar_append_sep sep x _ (hsep x (List.mem_cons_self _ _)),
      splitChar_intercalate sep (y :: rest) (by simp)
        (fun s hs => hsep s (List.mem_cons_of_mem _ hs))]

theorem foldl_resolved_pred (P : JSStr → Prop) :
    ∀ (parts acc : List JSStr), (∀ s ∈ acc, P s) →
      (∀ s ∈ parts, s ≠ ['.', '.'] → P s) →
      ∀ s ∈ parts.foldl
        (fun acc part => if part = ['.', '.'] then acc.dropLast else acc ++ [part]) acc, P s
  | [], acc, hacc, _, s, hs => hacc s hs
  | p :: rest, acc, hacc, hparts, s, hs => by
    rw [List.foldl_cons] at hs
    by_cases hp : p = ['.', '.']
    · rw [if_pos hp] at hs
      exact foldl_resolved_pred P rest acc.dropLast
        (fun t ht => hacc t (List.dropLast_subset _ ht))
        (fun t ht => hparts t (List.mem_cons_of_mem _ ht)) s hs
    · rw [if_neg hp] at hs
      refine foldl_resolved_pred P rest (acc ++ [p]) ?_
        (fun t ht => hparts t (List.mem_cons_of_mem _ ht)) s hs
      intro t ht
      rcases List.mem_append.mp ht with h1 | h2
      · exact hacc t h1
      · exact (List.mem_singleton.mp h2) ▸ hparts p (List.mem_cons_self _ _) hp

theorem foldl_no_dotdot :
    ∀ (parts acc : List JSStr), (∀ s ∈ parts, s ≠ ['.', '.']) →
      parts.foldl
        (fun acc part => if part = ['.', '.'] then acc.dropLast else acc ++ [part]) acc =
        acc ++ parts
  | [], acc, _ => by simp
  | p :: rest, acc, hparts => by
    rw [List.foldl_cons, if_neg (hparts p (List.mem_cons_self _ _)),
      foldl_no_dotdot rest (acc ++ [p]) (fun s hs => hparts s (List.mem_cons_of_mem _ hs))]
    simp

theorem normalize_of_clean_segs (segs : List JSStr)
    (hseg : ∀ s ∈ segs, s ≠ [] ∧ s ≠ ['.'] ∧ s ≠ ['.', '.'] ∧ '/' ∉ s) :
    Sdk.VirtualFS._normalize ('/' :: List.intercalate ['/'] segs) =
      '/' :: List.intercalate ['/'] segs := by
  have hsplit : splitChar '/' ('/' :: List.intercalate ['/'] segs) =
      [] :: splitChar '/' (List.intercalate ['/'] segs) := by
    have h := splitChar_append_sep '/' [] (List.intercalate ['/'] segs) (by simp)
    simpa using h
  unfold Sdk.VirtualFS._normalize
  simp only [startsWithSlash, if_pos, hsplit]
  by_cases hn : segs = []
  · subst hn
    rfl
  · rw [splitChar_intercalate '/' segs hn (fun s hs => (hseg s hs).2.2.2)]
    rw [List.filter_cons]
    simp only [decide_not]
    rw [if_neg (by simp)]
    rw [List.filter_eq_self.mpr (by
      intro s hs
      have h := hseg s hs
      simp [h.1, h.2.1])]
    rw [foldl_no_dotdot segs [] (fun s hs => (hseg s hs).2.2.1), List.nil_append]

theorem _normalize_idem (p : JSStr) :
    Sdk.VirtualFS._normalize (Sdk.VirtualFS._normalize p) = Sdk.VirtualFS._normalize p := by
  have hshape : ∃ segs : List JSStr,
      Sdk.VirtualFS._normalize p = '/' :: List.intercalate ['/'] segs ∧
      ∀ s ∈ segs, s ≠ [] ∧ s ≠ ['.'] ∧ s ≠ ['.', '.'] ∧ '/' ∉ s := by
    refine ⟨((splitChar '/' (if startsWithSlash p then p else '/' :: p)).filter
      (fun q => decide (q ≠ []) && decide (q ≠ ['.']))).foldl
        (fun acc part => if part = ['.', '.'] then acc.dropLast else acc ++ [part]) [],
      rfl, ?_⟩
    intro s hs
    have hparts : ∀ t ∈ (splitChar '/' (if startsWithSlash p then p else '/' :: p)).filter
        (fun q => decide (q ≠ []) && decide (q ≠ ['.'])),
        t ≠ [] ∧ t ≠ ['.'] ∧ '/' ∉ t := by
      intro t ht
      have hm := List.mem_filter.mp ht
      have h2 := hm.2
      simp only [Bool.and_eq_true, decide_eq_true_eq] at h2
      exact ⟨h2.1, h2.2, splitChar_no_sep '/' _ t hm.1⟩
    exact foldl_resolved_pred (fun t => t ≠ [] ∧ t ≠ ['.'] ∧ t ≠ ['.', '.'] ∧ '/' ∉ t)
      _ [] (by intro t ht; simp at ht)
      (fun t ht hne => ⟨(hparts t ht).1, (hparts t ht).2.1, hne, (hparts t ht).2.2⟩) s hs
  obtain ⟨segs, heq, hseg⟩ := hshape
  rw [heq, normalize_of_clean_segs segs hseg]

/-- C6 counterexample: with the capture sink installed, the script shim's
`writeSync(1, bytes("hello\n"))` returns 6 but delivers `"hello"` — the
decoded text with trailing whitespace trimmed — to the sink, not the exact
string `"hello\n"` the claim states. -/
theorem c6_counterexample :
    Script.FSPolyfill.writeSync ⟨VirtualFileSystem.empty, [], 100⟩ true 1
        [104, 101, 108, 108, 111, 10] =
      Except.ok (6, ⟨VirtualFileSystem.empty, [], 100⟩,
        [Script.SinkEvent.captured (js "hello")]) ∧
    js "hello" ≠ js "hello\n" :=
  ⟨rfl, by decide⟩

/-- C6 (amended): for every buffer, `writeSync(fd, buf)` with fd 1 or 2
delivers text to the host output sink without touching the VFS or fd table
and returns the byte count — the SDK shim delivers the exact decoded text
(in particular `"hello\n"` for `bytes("hello\n")`, returning 6), while the
script shim delivers the decoded text with trailing whitespace trimmed when
the capture sink is installed (and the raw text to `console.log`
otherwise); for every fd in the FD table both shims append `buf` to that
fd's content, flush the content to the VFS at the record's path, and return
the byte count; and for every other fd both fail by throwing `EBADF`. -/
theorem c6_writeSync (buf : Bytes) (fd : Nat) :
    (∀ st : Sdk.FSPolyfill, (fd = 1 ∨ fd = 2) →
      Sdk.FSPolyfill.writeSync st fd buf =
        Except.ok (buf.length, st, [utf8Decode buf])) ∧
    (∀ st : Script.FSPolyfill, (fd = 1 ∨ fd = 2) →
      Script.FSPolyfill.writeSync st true fd buf =
        Except.ok (buf.length, st, [Script.SinkEvent.captured (jsTrimEnd (utf8Decode buf))]) ∧
      Script.FSPolyfill.writeSync st false fd buf =
        Except.ok (buf.length, st, [Script.SinkEvent.consoled (utf8Decode buf)])) ∧
    (∀ st : Sdk.FSPolyfill, ¬(fd = 1 ∨ fd = 2) → ∀ file, mapGet st.fds fd = some file →
      Sdk.FSPolyfill.writeSync st fd buf =
        Except.ok (buf.length,
          { st with
            fds := mapSet st.fds fd { file with content := file.content ++ buf },
            vfs := st.vfs.writeFile file.path (VContent.bytes (file.content ++ buf)) }, [])) ∧
    (∀ st : Script.FSPolyfill, ∀ hasCapture, ¬(fd = 1 ∨ fd = 2) →
        ∀ file, mapGet st.fds fd = some file →
      Script.FSPolyfill.writeSync st hasCapture fd buf =
        Except.ok (buf.length,
          { st with
            fds := mapSet st.fds fd { file with content := file.content ++ buf },
            vfs := st.vfs.writeFile file.path (VContent.bytes (file.content ++ buf)) }, [])) ∧
    (∀ st : Sdk.FSPolyfill, ¬(fd = 1 ∨ fd = 2) → mapGet st.fds fd = none →
      Sdk.FSPolyfill.writeSync st fd buf = Except.error FsErr.badFD) ∧
    (∀ st : Script.FSPolyfill, ∀ hasCapture, ¬(fd = 1 ∨ fd = 2) → mapGet st.fds fd = none →
      Script.FSPolyfill.writeSync st hasCapture fd buf = Except.error FsErr.badFD) := by
  refine ⟨?_, ?_, ?_, ?_, ?_, ?_⟩
  · intro st h12
    unfold Sdk.FSPolyfill.writeSync
    rw [if_pos h12]
  · intro st h12
    constructor <;>
      · unfold Script.FSPolyfill.writeSync
        rw [if_pos h12]
        simp
  · intro st h12 file hfile
    unfold Sdk.FSPolyfill.writeSync
    rw [if_neg h12, hfile]
  · intro st hasCapture h12 file hfile
    unfold Script.FSPolyfill.writeSync
    rw [if_neg h12, hfile]
  · intro st h12 hnone
    unfold Sdk.FSPolyfill.writeSync
    rw [if_neg h12, hnone]
  · intro st hasCapture h12 hnone
    unfold Script.FSPolyfill.writeSync
    rw [if_neg h12, hnone]

/-- Concrete instantiation of the amended C6 theorem at
`bytes("hello\n")`: the SDK shim delivers exactly `"hello\n"` and
returns 6; the script shim appends an FD-table write and flushes it to its
VFS; an unknown fd (7) throws `EBADF` in the SDK shim. -/
theorem c6_writeSync_witness :
    Sdk.FSPolyfill.writeSync ⟨Sdk.VirtualFS.empty, [], 100⟩ 1 [104, 101, 108, 108, 111, 10] =
      Except.ok (6, ⟨Sdk.VirtualFS.empty, [], 100⟩, [js "hello\n"]) ∧
    Script.FSPolyfill.writeSync
        ⟨VirtualFileSystem.empty, [(100, ⟨js "/a.txt", 577, [104], 0⟩)], 101⟩ true 100 [105] =
      Except.ok (1,
        ⟨VirtualFileSystem.empty.writeFile (js "/a.txt") (VContent.bytes [104, 105]),
          [(100, ⟨js "/a.txt", 577, [104, 105], 0⟩)], 101⟩, []) ∧
    Sdk.FSPolyfill.writeSync ⟨Sdk.VirtualFS.empty, [], 100⟩ 7 [104, 101, 108, 108, 111, 10] =
      Except.error FsErr.badFD :=
  ⟨by
    have h := (c6_writeSync [104, 101, 108, 108, 111, 10] 1).1
      ⟨Sdk.VirtualFS.empty, [], 100⟩ (Or.inl rfl)
    rw [h]
    rfl,
   by
    have h := (c6_writeSync [105] 100).2.2.2.1
      ⟨VirtualFileSystem.empty, [(100, ⟨js "/a.txt", 577, [104], 0⟩)], 101⟩ true
      (by decide) ⟨js "/a.txt", 577, [104], 0⟩ rfl
    rw [h]
    rfl,
   (c6_writeSync [104, 101, 108, 108, 111, 10] 7).2.2.2.2.1
     ⟨Sdk.VirtualFS.empty, [], 100⟩ (by decide) rfl⟩

/-- C10 counterexample: under the working directory `/work`, opening the
relative path `f` with `O_CREAT` succeeds, and the first `writeSync`
through the descriptor flushes the snapshot to the VFS — at the resolved
path `/work/f` — yet `exists` of the argument path `f` is still false
after the flush, because `exists` resolves `f` to `/f`: the transition of
`exists(p)` the claim describes never happens. Shown on the script shim
(src/script/fs-polyfill.js); the SDK shim resolves `open` paths against
the working directory identically. -/
theorem c10_counterexample :
    ∃ (st' st'' : Script.FSPolyfill),
      Script.FSPolyfill.openFile ⟨⟨[], [], js "/work"⟩, [], 100⟩ (js "f") 577 438 =
        Except.ok (100, st') ∧
      Script.FSPolyfill.writeSync st' true 100 [104] = Except.ok (1, st'', []) ∧
      st''.vfs.existsFile (js "f") = false ∧
      st''.vfs.existsFile (js "/work/f") = true :=
  ⟨_, _, rfl, rfl, by decide, by decide⟩

/-- C10 (amended): in both FS shims, `open` with the `O_CREAT` bit (64) set
on a path whose cwd-resolved, normalized form `q` has no VFS entry succeeds
with the fresh descriptor `nextFd` and an empty content snapshot, leaves
the VFS untouched (`exists q` stays false), and the first `writeSync`
through the descriptor flushes the snapshot to the VFS, after which
`exists q` is true. The flush lands at the resolved path `q`, not at the
argument `p`: for a relative `p` under a non-root working directory the
flush does not make `exists p` true (the unamended claim fails there).
`100 ≤ nextFd` is the shims' invariant (`nextFd` starts at 100 and only
grows), keeping fresh descriptors clear of the reserved fds 1 and 2. -/
theorem c10_open_creat_no_vfs_entry
    (sdkSt : Sdk.FSPolyfill) (scrSt : Script.FSPolyfill) (p : JSStr) (flags : Nat)
    (hcreat : Nat.land flags 64 ≠ 0)
    (hsdkFd : 100 ≤ sdkSt.nextFd) (hscrFd : 100 ≤ scrSt.nextFd)
    (hsdkAbsent : sdkSt.vfs.existsFile
      (Sdk.VirtualFS._normalize (resolveAgainstCwd sdkSt.vfs.workingDirectory p)) = false)
    (hscrAbsent : scrSt.vfs.existsFile
      (VirtualFileSystem.normalizePath
        (resolveAgainstCwd scrSt.vfs.workingDirectory p)) = false) :
    (∃ st' : Sdk.FSPolyfill,
      Sdk.FSPolyfill.openFile sdkSt p flags 438 = Except.ok (sdkSt.nextFd, st') ∧
      st'.vfs = sdkSt.vfs ∧
      mapGet st'.fds sdkSt.nextFd = some
        ⟨Sdk.VirtualFS._normalize (resolveAgainstCwd sdkSt.vfs.workingDirectory p),
          flags, [], 0⟩ ∧
      st'.vfs.existsFile
        (Sdk.VirtualFS._normalize (resolveAgainstCwd sdkSt.vfs.workingDirectory p)) = false ∧
      (∀ buf : Bytes, ∃ st'' : Sdk.FSPolyfill,
        Sdk.FSPolyfill.writeSync st' sdkSt.nextFd buf = Except.ok (buf.length, st'', []) ∧
        st''.vfs.existsFile
          (Sdk.VirtualFS._normalize (resolveAgainstCwd sdkSt.vfs.workingDirectory p)) =
          true)) ∧
    (∃ st' : Script.FSPolyfill,
      Script.FSPolyfill.openFile scrSt p flags 438 = Except.ok (scrSt.nextFd, st') ∧
      st'.vfs = scrSt.vfs ∧
      mapGet st'.fds scrSt.nextFd = some
        ⟨VirtualFileSystem.normalizePath (resolveAgainstCwd scrSt.vfs.workingDirectory p),
          flags, [], 0⟩ ∧
      st'.vfs.existsFile
        (VirtualFileSystem.normalizePath
          (resolveAgainstCwd scrSt.vfs.workingDirectory p)) = false ∧
      (∀ (buf : Bytes) (hasCapture : Bool), ∃ st'' : Script.FSPolyfill,
        Script.FSPolyfill.writeSync st' hasCapture scrSt.nextFd buf =
          Except.ok (buf.length, st'', []) ∧
        st''.vfs.existsFile
          (VirtualFileSystem.normalizePath
            (resolveAgainstCwd scrSt.vfs.workingDirectory p)) = true)) := by
  constructor
  · refine ⟨{ sdkSt with
        nextFd := sdkSt.nextFd + 1,
        fds := mapSet sdkSt.fds sdkSt.nextFd
          ⟨Sdk.VirtualFS._normalize (resolveAgainstCwd sdkSt.vfs.workingDirectory p),
            flags, [], 0⟩ }, ?_, rfl,
      mapGet_mapSet_self _ _ _, hsdkAbsent, ?_⟩
    · simp only [Sdk.FSPolyfill.openFile]
      rw [hsdkAbsent]
      simp only [Bool.false_eq_true, if_false]
      rw [if_neg hcreat]
      simp
    · intro buf
      refine ⟨⟨Sdk.VirtualFS.writeFile sdkSt.vfs
          (Sdk.VirtualFS._normalize (resolveAgainstCwd sdkSt.vfs.workingDirectory p))
          (VContent.bytes buf),
        mapSet (mapSet sdkSt.fds sdkSt.nextFd
            ⟨Sdk.VirtualFS._normalize (resolveAgainstCwd sdkSt.vfs.workingDirectory p),
              flags, [], 0⟩)
          sdkSt.nextFd
          ⟨Sdk.VirtualFS._normalize (resolveAgainstCwd sdkSt.vfs.workingDirectory p),
            flags, buf, 0⟩,
        sdkSt.nextFd + 1⟩, ?_, ?_⟩
      · unfold Sdk.FSPolyfill.writeSync
        rw [if_neg (by omega), mapGet_mapSet_self]
        rfl
      · exact sdk_writeFile_existsFile _ _ _
  · refine ⟨{ scrSt with
        nextFd := scrSt.nextFd + 1,
        fds := mapSet scrSt.fds scrSt.nextFd
          ⟨VirtualFileSystem.normalizePath (resolveAgainstCwd scrSt.vfs.workingDirectory p),
            flags, [], 0⟩ }, ?_, rfl,
      mapGet_mapSet_self _ _ _, hscrAbsent, ?_⟩
    · simp only [Script.FSPolyfill.openFile]
      rw [hscrAbsent]
      simp only [Bool.false_eq_true, if_false]
      rw [if_neg hcreat]
      simp
    · intro buf hasCapture
      refine ⟨⟨VirtualFileSystem.writeFile scrSt.vfs
          (VirtualFileSystem.normalizePath (resolveAgainstCwd scrSt.vfs.workingDirectory p))
          (VContent.bytes buf),
        mapSet (mapSet scrSt.fds scrSt.nextFd
            ⟨VirtualFileSystem.normalizePath
                (resolveAgainstCwd scrSt.vfs.workingDirectory p),
              flags, [], 0⟩)
          scrSt.nextFd
          ⟨VirtualFileSystem.normalizePath (resolveAgainstCwd scrSt.vfs.workingDirectory p),
            flags, buf, 0⟩,
        scrSt.nextFd + 1⟩, ?_, ?_⟩
      · unfold Script.FSPolyfill.writeSync
        rw [if_neg (by omega), mapGet_mapSet_self]
        rfl
      · exact script_writeFile_existsFile _ _ _

/-- Concrete instantiation of the amended C10 theorem: opening
`/tmp/new.go` with flags `O_WRONLY|O_CREAT|O_TRUNC` (577) on fresh shim
states of both polyfills. -/
theorem c10_open_creat_no_vfs_entry_witness :
    (∃ st' : Sdk.FSPolyfill,
      Sdk.FSPolyfill.openFile ⟨Sdk.VirtualFS.empty, [], 100⟩ (js "/tmp/new.go") 577 438 =
        Except.ok (100, st') ∧
      st'.vfs = Sdk.VirtualFS.empty ∧
      mapGet st'.fds 100 = some
        ⟨Sdk.VirtualFS._normalize (resolveAgainstCwd (js "/") (js "/tmp/new.go")),
          577, [], 0⟩ ∧
      st'.vfs.existsFile
        (Sdk.VirtualFS._normalize (resolveAgainstCwd (js "/") (js "/tmp/new.go"))) = false ∧
      (∀ buf : Bytes, ∃ st'' : Sdk.FSPolyfill,
        Sdk.FSPolyfill.writeSync st' 100 buf = Except.ok (buf.length, st'', []) ∧
        st''.vfs.existsFile
          (Sdk.VirtualFS._normalize (resolveAgainstCwd (js "/") (js "/tmp/new.go"))) =
          true)) ∧
    (∃ st' : Script.FSPolyfill,
      Script.FSPolyfill.openFile ⟨VirtualFileSystem.empty, [], 100⟩
          (js "/tmp/new.go") 577 438 =
        Except.ok (100, st') ∧
      st'.vfs = VirtualFileSystem.empty ∧
      mapGet st'.fds 100 = some
        ⟨VirtualFileSystem.normalizePath (resolveAgainstCwd (js "/") (js "/tmp/new.go")),
          577, [], 0⟩ ∧
      st'.vfs.existsFile
        (VirtualFileSystem.normalizePath (resolveAgainstCwd (js "/") (js "/tmp/new.go"))) =
        false ∧
      (∀ (buf : Bytes) (hasCapture : Bool), ∃ st'' : Script.FSPolyfill,
        Script.FSPolyfill.writeSync st' hasCapture 100 buf =
          Except.ok (buf.length, st'', []) ∧
        st''.vfs.existsFile
          (VirtualFileSystem.normalizePath
            (resolveAgainstCwd (js "/") (js "/tmp/new.go"))) = true)) :=
  c10_open_creat_no_vfs_entry ⟨Sdk.VirtualFS.empty, [], 100⟩ ⟨VirtualFileSystem.empty, [], 100⟩
    (js "/tmp/new.go") 577 (by decide) (by decide) (by decide) (by decide) (by decide)

theorem lexLe_total : ∀ a b : JSStr, lexLe a b = true ∨ lexLe b a = true
  | [], _ => Or.inl rfl
  | _ :: _, [] => Or.inr rfl
  | a :: as, b :: bs => by
    rcases Nat.lt_trichotomy a.toNat b.toNat with h | h | h
    · left; simp [lexLe, h]
    · have hne : ¬a.toNat < b.toNat := by omega
      have hne2 : ¬b.toNat < a.toNat := by omega
      rcases lexLe_total as bs with h2 | h2
      · left; simp [lexLe, hne, hne2, h2]
      · right; simp [lexLe, hne, hne2, h2]
    · right; simp [lexLe, h]

theorem lexLe_trans : ∀ a b c : JSStr,
    lexLe a b = true → lexLe b c = true → lexLe a c = true
  | [], _, _, _, _ => rfl
  | a :: as, [], _, hab, _ => by simp [lexLe] at hab
  | a :: as, b :: bs, [], _, hbc => by simp [lexLe] at hbc
  | a :: as, b :: bs, c :: cs, hab, hbc => by
    simp only [lexLe] at hab hbc ⊢
    by_cases h1 : a.toNat < b.toNat
    · by_cases h2 : b.toNat < c.toNat
      · rw [if_pos (by omega)]
      · by_cases h4 : c.toNat < b.toNat
        · rw [if_neg h2, if_pos h4] at hbc
          exact absurd hbc (by simp)
        · rw [if_pos (by omega)]
    · by_cases h3 : b.toNat < a.toNat
      · rw [if_neg h1, if_pos h3] at hab
        exact absurd hab (by simp)
      · by_cases h2 : b.toNat < c.toNat
        · rw [if_pos (by omega)]
        · by_cases h4 : c.toNat < b.toNat
          · rw [if_neg h2, if_pos h4] at hbc
            exact absurd hbc (by simp)
          · rw [if_neg h1, if_neg h3] at hab
            rw [if_neg h2, if_neg h4] at hbc
            rw [if_neg (by omega), if_neg (by omega)]
            exact lexLe_trans as bs cs hab hbc

theorem lexLe_antisymm : ∀ a b : JSStr,
    lexLe a b = true → lexLe b a = true → a = b
  | [], [], _, _ => rfl
  | [], _ :: _, _, hba => by simp [lexLe] at hba
  | _ :: _, [], hab, _ => by simp [lexLe] at hab
  | a :: as, b :: bs, hab, hba => by
    simp only [lexLe] at hab hba
    by_cases h1 : a.toNat < b.toNat
    · rw [if_neg (by omega), if_pos (by omega)] at hba
      exact absurd hba (by simp)
    · by_cases h2 : b.toNat < a.toNat
      · rw [if_neg h1, if_pos h2] at hab
        exact absurd hab (by simp)
      · rw [if_neg h1, if_neg h2] at hab
        rw [if_neg h2, if_neg h1] at hba
        have hc : a = b := by
          have hn : a.toNat = b.toNat := by omega
          rw [← Char.ofNat_toNat a, ← Char.ofNat_toNat b, hn]
        rw [hc, lexLe_antisymm as bs hab hba]

theorem mapGet_mem {κ α : Type} [DecidableEq κ] :
    ∀ {m : List (κ × α)} {k : κ} {v : α}, mapGet m k = some v → (k, v) ∈ m
  | [], k, v, h => by simp [mapGet] at h
  | (k2, v2) :: rest, k, v, h => by
    by_cases he : k2 = k
    · subst he
      simp only [mapGet, if_pos] at h
      obtain rfl : v2 = v := by simpa using h
      exact List.mem_cons_self _ _
    · simp only [mapGet, if_neg he] at h
      exact List.mem_cons_of_mem _ (mapGet_mem h)

theorem mapGet_of_mem_nodup {κ α : Type} [DecidableEq κ] :
    ∀ {m : List (κ × α)} {k : κ} {v : α},
      (m.map Prod.fst).Nodup → (k, v) ∈ m → mapGet m k = some v
  | [], k, v, _, hm => by simp at hm
  | (k2, v2) :: rest, k, v, hnd, hm => by
    rw [List.map_cons, List.nodup_cons] at hnd
    rcases List.mem_cons.mp hm with he | hm2
    · obtain ⟨rfl, rfl⟩ := Prod.mk.injEq .. ▸ he
      simp [mapGet]
    · have hne : k2 ≠ k := by
        intro he2
        subst he2
        exact hnd.1 (List.mem_map.mpr ⟨(k2, v), hm2, rfl⟩)
      simp only [mapGet, if_neg hne]
      exact mapGet_of_mem_nodup hnd.2 hm2

/-- C9 (amended): `generateSourceHash` is deterministic over the set of
path-to-content pairs: two file maps with the same pairs (in any insertion
order, with no duplicate paths) hash identically — the canonical form being
the `JSON.stringify` serialization of the map restricted to its sorted
keys, not a length-prefixed byte sequence. -/
theorem c9_hash_deterministic (files1 files2 : List (JSStr × JSStr))
    (h1 : (files1.map Prod.fst).Nodup) (h2 : (files2.map Prod.fst).Nodup)
    (hsame : ∀ kv : JSStr × JSStr, kv ∈ files1 ↔ kv ∈ files2) :
    CacheManager.generateSourceHash files1 = CacheManager.generateSourceHash files2 := by
  haveI : IsTotal JSStr (fun a b => lexLe a b = true) := ⟨lexLe_total⟩
  haveI : IsTrans JSStr (fun a b => lexLe a b = true) := ⟨fun a b c => lexLe_trans a b c⟩
  haveI : IsAntisymm JSStr (fun a b => lexLe a b = true) := ⟨fun a b => lexLe_antisymm a b⟩
  have nd1 : files1.Nodup := List.Nodup.of_map Prod.fst h1
  have nd2 : files2.Nodup := List.Nodup.of_map Prod.fst h2
  have hperm : files1.Perm files2 := (List.perm_ext_iff_of_nodup nd1 nd2).mpr hsame
  have hkeys : sortedKeys files1 = sortedKeys files2 :=
    List.eq_of_perm_of_sorted
      ((List.perm_insertionSort _ _).trans
        ((hperm.map Prod.fst).trans (List.perm_insertionSort _ _).symm))
      (List.sorted_insertionSort _ _) (List.sorted_insertionSort _ _)
  have hget : ∀ k, mapGet files1 k = mapGet files2 k := by
    intro k
    cases hg : mapGet files1 k with
    | some v =>
      exact (mapGet_of_mem_nodup h2 ((hsame (k, v)).mp (mapGet_mem hg))).symm
    | none =>
      cases hg2 : mapGet files2 k with
      | none => rfl
      | some v =>
        have := mapGet_of_mem_nodup h1 ((hsame (k, v)).mpr (mapGet_mem hg2))
        rw [this] at hg
        exact absurd hg (by simp)
  unfold CacheManager.generateSourceHash jsonStringifySorted
  rw [hkeys, List.map_congr_left (fun k _ => by rw [hget k])]

/-- Concrete instantiation of the C9 determinism theorem: the two-file map
in both insertion orders. -/
theorem c9_hash_deterministic_witness :
    CacheManager.generateSourceHash [(js "a.go", js "x"), (js "b.go", js "y")] =
      CacheManager.generateSourceHash [(js "b.go", js "y"), (js "a.go", js "x")] :=
  c9_hash_deterministic _ _ (by decide) (by decide)
    (by intro kv; simp [List.mem_cons, or_comm])

set_option maxRecDepth 16384 in
/-- C9 counterexample: for the one-file map of path `a` to content `b`, the
hash the code computes is `simpleHash` of the JSON serialization text — not
a hash of the length-prefixed canonical byte form the claim describes:
hashing that form yields a different value. -/
theorem c9_counterexample :
    jsonStringifySorted [(js "a", js "b")] = [123, 34, 97, 34, 58, 34, 98, 34, 125].map Char.ofNat ∧
    specCanonicalForm [(js "a", js "b")] = [1, 97, 1, 98] ∧
    CacheManager.generateSourceHash [(js "a", js "b")] ≠
      toBase36 ((specCanonicalForm [(js "a", js "b")]).foldl simpleHashStep 0).natAbs :=
  ⟨by decide, by decide, by decide⟩

/-- C1: if `compile(inputs)` succeeds, calling it again with identical
inputs returns wasm bytes byte-equal to the first call's result, obtained
from the artifact cache during the cache-check stage (`fromCache`), without
running the foreign compiler stage (`compilerRan = false`), and without
changing the state. -/
theorem c1_cache_hit_equivalence (cm : CompilationManager)
    (runCompiler : List (JSStr × JSStr) → Bytes) (sourceFiles : List (JSStr × JSStr))
    (r : CompileOk) (cm1 : CompilationManager)
    (h : CompilationManager.compile cm runCompiler sourceFiles = (Except.ok r, cm1)) :
    CompilationManager.compile cm1 runCompiler sourceFiles =
      (Except.ok ⟨r.wasmBinary, true, false⟩, cm1) := by
  simp only [CompilationManager.compile] at h ⊢
  cases hget : mapGet cm.cache
      (CacheManager.cacheKey (CacheManager.generateSourceHash sourceFiles)) with
  | some cached =>
    rw [hget] at h
    obtain ⟨hr, hcm⟩ := Prod.mk.injEq .. ▸ h
    have hr2 : r = ⟨cached, true, false⟩ := by
      cases hr2 : r
      simp only [hr2] at hr
      simpa using hr.symm
    subst hcm
    rw [hget, hr2]
  | none =>
    rw [hget] at h
    by_cases hval : CompilationManager.validateWasmBinary (runCompiler sourceFiles)
    · rw [if_pos hval] at h
      obtain ⟨hr, hcm⟩ := Prod.mk.injEq .. ▸ h
      have hr2 : r = ⟨runCompiler sourceFiles, false, true⟩ := by
        cases hr3 : r
        simp only [hr3] at hr
        simpa using hr.symm
      rw [← hcm]
      show (match mapGet (mapSet cm.cache _ _) _ with
        | some cached => (Except.ok (⟨cached, true, false⟩ : CompileOk), _)
        | none => _) = _
      rw [mapGet_mapSet_self, hr2]
    · rw [if_neg hval] at h
      obtain ⟨hr, _⟩ := Prod.mk.injEq .. ▸ h
      exact absurd hr.symm (by simp)

/-- Concrete run of the C1 theorem: an empty cache, a two-line source map,
and an oracle producing a well-formed wasm header; the first call compiles
and caches, the second is a pure cache hit with byte-equal output. -/
theorem c1_cache_hit_equivalence_witness :
    ∃ (r : CompileOk) (cm1 : CompilationManager),
      CompilationManager.compile ⟨[], VirtualFileSystem.empty⟩
          (fun _ => [0, 97, 115, 109, 1, 0, 0, 0]) [(js "main.go", js "package main")] =
        (Except.ok r, cm1) ∧
      CompilationManager.compile cm1
          (fun _ => [0, 97, 115, 109, 1, 0, 0, 0]) [(js "main.go", js "package main")] =
        (Except.ok ⟨r.wasmBinary, true, false⟩, cm1) :=
  ⟨_, _, rfl,
    c1_cache_hit_equivalence ⟨[], VirtualFileSystem.empty⟩
      (fun _ => [0, 97, 115, 109, 1, 0, 0, 0]) [(js "main.go", js "package main")] _ _ rfl⟩

theorem validateWasmBinary_spec {b : Bytes}
    (h : CompilationManager.validateWasmBinary b = true) :
    8 ≤ b.length ∧ b.take 4 = [0, 97, 115, 109] := by
  unfold CompilationManager.validateWasmBinary at h
  by_cases hl : b.length < 8
  · rw [if_pos hl] at h
    exact absurd h (by simp)
  · rw [if_neg hl] at h
    simp only [Bool.and_eq_true, decide_eq_true_eq] at h
    rcases b with _ | ⟨b0, _ | ⟨b1, _ | ⟨b2, _ | ⟨b3, rest⟩⟩⟩⟩ <;>
      simp only [List.length_nil, List.length_cons] at hl
    · omega
    · omega
    · omega
    · omega
    · refine ⟨by simp only [List.length_cons]; omega, ?_⟩
      obtain ⟨⟨⟨h0, h1⟩, h2⟩, h3⟩ := h
      simp only [List.getD_cons_zero, List.getD_cons_succ] at h0 h1 h2 h3
      simp [List.take, h0, h1, h2, h3]

/-- C5 counterexample: an output whose first four bytes are the wasm magic
but whose version field is 2 (not `01 00 00 00`) passes
`validateWasmBinary`, so `compile()` succeeds even though the result's
first 8 bytes are not `00 61 73 6D 01 00 00 00`. -/
theorem c5_counterexample :
    ∃ cm1 : CompilationManager,
      CompilationManager.compile ⟨[], VirtualFileSystem.empty⟩
          (fun _ => [0, 97, 115, 109, 2, 0, 0, 0]) [(js "main.go", js "package main")] =
        (Except.ok ⟨[0, 97, 115, 109, 2, 0, 0, 0], false, true⟩, cm1) ∧
      [0, 97, 115, 109, 2, 0, 0, 0].take 8 ≠ [0, 97, 115, 109, 1, 0, 0, 0] :=
  ⟨_, rfl, by decide⟩

/-- C5 (amended): in the part_005 `CompilationManager` pipeline, on a cache
miss a successful `compile()` result is at least 8 bytes and begins with
the four-byte wasm magic `00 61 73 6D` (the version bytes are not
validated), and a produced binary failing that 4-byte check makes
`compile()` fail with `Invalid WASM binary generated` instead of
succeeding; results served from the cache are returned without
re-validation. The SDK driver `GoScript.compile` (src/sdk/goscript.js lines
211-233) performs no output validation at all: whatever bytes the linker
stage leaves at `/tmp/build/main.wasm` — a buffer without the wasm magic
included — are returned as a `success: true` result. -/
theorem c5_output_magic_validation (cm : CompilationManager)
    (runCompiler : List (JSStr × JSStr) → Bytes) (sourceFiles : List (JSStr × JSStr))
    (hmiss : mapGet cm.cache
      (CacheManager.cacheKey (CacheManager.generateSourceHash sourceFiles)) = none) :
    (∀ (r : CompileOk) (cm1 : CompilationManager),
        CompilationManager.compile cm runCompiler sourceFiles = (Except.ok r, cm1) →
      8 ≤ r.wasmBinary.length ∧ r.wasmBinary.take 4 = [0, 97, 115, 109]) ∧
    (CompilationManager.validateWasmBinary (runCompiler sourceFiles) = false →
      (CompilationManager.compile cm runCompiler sourceFiles).1 =
        Except.error (js "Invalid WASM binary generated")) ∧
    (∀ (g : Sdk.GoScript) (w : Bytes) (source : List (JSStr × JSStr)),
      g.state.initialized = true → g.state.compiling = false →
      ∃ g' : Sdk.GoScript,
        Sdk.GoScript.compile g
            (fun v => v.writeFile (js "/tmp/build/main.o") (VContent.bytes [1]))
            (fun v => v.writeFile (js "/tmp/build/main.wasm") (VContent.bytes w)) source =
          (Except.ok ⟨true, some (VContent.bytes w), none⟩, g')) := by
  refine ⟨?_, ?_, ?_⟩
  · intro r cm1 h
    simp only [CompilationManager.compile] at h
    rw [hmiss] at h
    by_cases hval : CompilationManager.validateWasmBinary (runCompiler sourceFiles)
    · rw [if_pos hval] at h
      obtain ⟨hr, _⟩ := Prod.mk.injEq .. ▸ h
      have hr2 : r = ⟨runCompiler sourceFiles, false, true⟩ := by
        cases hr3 : r
        simp only [hr3] at hr
        simpa using hr.symm
      rw [hr2]
      exact validateWasmBinary_spec hval
    · rw [if_neg hval] at h
      obtain ⟨hr, _⟩ := Prod.mk.injEq .. ▸ h
      exact absurd hr.symm (by simp)
  · intro hval
    simp only [CompilationManager.compile]
    rw [hmiss, hval]
    simp
  · intro g w source hinit hcomp
    refine ⟨⟨{ g.state with compiling := false },
      ((source.foldl
          (fun v kv => v.writeFile (js "/tmp/build/" ++ kv.1) (VContent.str kv.2))
          (g.vfs.mkdir (js "/tmp/build"))).writeFile (js "/tmp/build/main.o")
            (VContent.bytes [1])).writeFile (js "/tmp/build/main.wasm")
        (VContent.bytes w)⟩, ?_⟩
    simp only [Sdk.GoScript.compile, hinit, hcomp]
    rw [if_neg (by simp), if_neg (by simp)]
    rw [sdk_writeFile_existsFile, if_neg (by simp)]
    rw [sdk_writeFile_existsFile, if_neg (by simp)]
    rw [sdk_writeFile_readFile]

/-- Concrete instantiation of the amended C5 theorem: a successful
`CompilationManager` compile with a well-formed oracle output has the
magic prefix, and the SDK driver returns `success: true` for a linker
output `[7]` that lacks the wasm magic entirely. -/
theorem c5_output_magic_validation_witness :
    (∃ (r : CompileOk) (cm1 : CompilationManager),
      CompilationManager.compile ⟨[], VirtualFileSystem.empty⟩
          (fun _ => [0, 97, 115, 109, 1, 0, 0, 0]) [(js "main.go", js "package main")] =
        (Except.ok r, cm1) ∧
      8 ≤ r.wasmBinary.length ∧ r.wasmBinary.take 4 = [0, 97, 115, 109]) ∧
    (∃ g' : Sdk.GoScript,
      Sdk.GoScript.compile ⟨⟨true, true, false⟩, Sdk.VirtualFS.empty⟩
          (fun v => v.writeFile (js "/tmp/build/main.o") (VContent.bytes [1]))
          (fun v => v.writeFile (js "/tmp/build/main.wasm") (VContent.bytes [7]))
          [(js "main.go", js "package main")] =
        (Except.ok ⟨true, some (VContent.bytes [7]), none⟩, g')) :=
  ⟨⟨_, _, rfl,
    (c5_output_magic_validation ⟨[], VirtualFileSystem.empty⟩
      (fun _ => [0, 97, 115, 109, 1, 0, 0, 0]) [(js "main.go", js "package main")] rfl).1
      _ _ rfl⟩,
   (c5_output_magic_validation ⟨[], VirtualFileSystem.empty⟩
      (fun _ => [0, 97, 115, 109, 1, 0, 0, 0]) [(js "main.go", js "package main")] rfl).2.2
      ⟨⟨true, true, false⟩, Sdk.VirtualFS.empty⟩ [7] [(js "main.go", js "package main")]
      rfl rfl⟩

/-- C8 counterexample: `CompilationManager.compile` (part_005 lines 44-58)
has no busy check — invoked while the status is `compiling`, on an empty
cache it runs the full pipeline anyway (the compiler stage runs:
`compilerRan = true`), mutates the VFS and the cache, and ends with status
`complete` instead of rejecting the call with `Busy`. -/
theorem c8_counterexample :
    ∃ cm1 : CompilationManager,
      CompilationManager.compileTracked ⟨[], VirtualFileSystem.empty⟩ CMStatus.compiling
          (fun _ => [0, 97, 115, 109, 1, 0, 0, 0]) [(js "main.go", js "package main")] =
        ((Except.ok ⟨[0, 97, 115, 109, 1, 0, 0, 0], false, true⟩, cm1), CMStatus.complete) ∧
      cm1.vfs ≠ VirtualFileSystem.empty ∧ cm1.cache ≠ [] :=
  ⟨_, rfl, by decide, by decide⟩

/-- C8 (amended): the SDK driver `GoScript.compile` (src/sdk/goscript.js
lines 170-180) rejects a `compile()` issued while `state.compiling` is set
on an initialized driver with the `Busy` throw (`Compilation already in
progress`) before any pipeline step, returning the driver state — the VFS
included — unchanged. The `CompilationManager.compile` of part_005 has no
such guard: no statement of it reads the incoming status, so invoked under
any status — `compiling` included — it performs exactly the full staged
pipeline, VFS and cache mutations included. -/
theorem c8_busy_rejection (g : Sdk.GoScript)
    (compilerEffect linkerEffect : Sdk.VirtualFS → Sdk.VirtualFS)
    (source : List (JSStr × JSStr))
    (hinit : g.state.initialized = true) (hcomp : g.state.compiling = true) :
    Sdk.GoScript.compile g compilerEffect linkerEffect source =
      (Except.error Sdk.GsThrow.busy, g) ∧
    (∀ (cm : CompilationManager) (status : CMStatus)
        (runCompiler : List (JSStr × JSStr) → Bytes) (files : List (JSStr × JSStr)),
      (CompilationManager.compileTracked cm status runCompiler files).1 =
        CompilationManager.compile cm runCompiler files) := by
  constructor
  · unfold Sdk.GoScript.compile
    rw [hinit, hcomp]
    simp
  · intro cm status runCompiler files
    rfl

/-- Concrete instantiation of the amended C8 theorem: an initialized driver
mid-compilation rejects a fresh `compile()` with `Busy` and is unchanged,
while the part_005 manager invoked under status `compiling` produces
exactly the untracked pipeline's outcome. -/
theorem c8_busy_rejection_witness :
    Sdk.GoScript.compile ⟨⟨true, true, true⟩, Sdk.VirtualFS.empty⟩ id id
        [(js "main.go", js "package main")] =
      (Except.error Sdk.GsThrow.busy, ⟨⟨true, true, true⟩, Sdk.VirtualFS.empty⟩) ∧
    (CompilationManager.compileTracked ⟨[], VirtualFileSystem.empty⟩ CMStatus.compiling
        (fun _ => []) [(js "main.go", js "package main")]).1 =
      CompilationManager.compile ⟨[], VirtualFileSystem.empty⟩
        (fun _ => []) [(js "main.go", js "package main")] :=
  ⟨(c8_busy_rejection ⟨⟨true, true, true⟩, Sdk.VirtualFS.empty⟩ id id
      [(js "main.go", js "package main")] rfl rfl).1,
   (c8_busy_rejection ⟨⟨true, true, true⟩, Sdk.VirtualFS.empty⟩ id id
      [(js "main.go", js "package main")] rfl rfl).2
     ⟨[], VirtualFileSystem.empty⟩ CMStatus.compiling (fun _ => [])
     [(js "main.go", js "package main")]⟩
